import Mathlib

/-!
# Gradient colour-stop model (`kdgui/graphics/Gradient.cpp`)

A shallow embedding of the `Gradient` class: its state, the stop insertion,
the lazy stable sort, the cursor-cached interval search `findStop`, the colour
query `getColor`, `hasAlpha`, the tiling adjustment, the setters and the two
`equalGradient` helpers; the states reachable through these calls and the
invariant they keep.

Modelling conventions.
* C++ `float` values are exact rationals (`ℚ`): rounding, infinities and NaN
  are outside the model.
* C++ `int` values (`m_lastStop`, the loop variable of `findStop`) are `Int`;
  no value in the model comes near the 32-bit range.
* `ASSERT` is the debug-only macro: it does not change control flow and is not
  part of the functions below.
* An access to a vector element outside its bounds has no defined result:
  the functions that index return `Option`, and `none` is such an access.
* The `mutable` members written by the `const` methods `getColor` and
  `findStop` are returned as the new state.
-/

namespace Gradient

/-- The struct `Gradient::ColorStop`: a position and four colour channels. -/
structure ColorStop where
  stop : ℚ
  red : ℚ
  green : ℚ
  blue : ℚ
  alpha : ℚ
deriving DecidableEq, Repr

/-- The point type `FloatPoint`, read through `x()` and `y()`. -/
structure FloatPoint where
  x : ℚ
  y : ℚ
deriving DecidableEq, Repr

/-- The size type `IntSize`, written through `setWidth` and `setHeight`. -/
structure IntSize where
  width : Int
  height : Int
deriving DecidableEq, Repr

/-- The rectangle type `FloatRect`, written through `setX`, `setY`, `setWidth`
and `setHeight`. -/
structure FloatRect where
  x : ℚ
  y : ℚ
  width : ℚ
  height : ℚ
deriving DecidableEq, Repr

/-- The enumeration `GradientSpreadMethod`. -/
inductive GradientSpreadMethod where
  | SpreadMethodPad
  | SpreadMethodReflect
  | SpreadMethodRepeat
deriving DecidableEq, Repr

/-- Modelled from the spec: the type `AffineTransform` is declared outside
`Gradient.cpp`; it is a value that is stored and compared, here the six
coefficients of an affine map. -/
structure AffineTransform where
  a : ℚ
  b : ℚ
  c : ℚ
  d : ℚ
  e : ℚ
  f : ℚ
deriving DecidableEq, Repr

/-- The four values `getColor` writes through `r`, `g`, `b` and `a`. -/
structure RGBA where
  r : ℚ
  g : ℚ
  b : ℚ
  a : ℚ
deriving DecidableEq, Repr

/-- The members of class `Gradient`. `m_gradient` is the platform gradient
handle, `none` for the null handle. -/
structure State where
  m_radial : Bool
  m_p0 : FloatPoint
  m_p1 : FloatPoint
  m_r0 : ℚ
  m_r1 : ℚ
  m_aspectRatio : ℚ
  m_stops : List ColorStop
  m_stopsSorted : Bool
  m_lastStop : Int
  m_spreadMethod : GradientSpreadMethod
  m_gradientSpaceTransformation : AffineTransform
  m_gradient : Option Nat
deriving DecidableEq, Repr

/-- Modelled from the spec: `platformDestroy` is defined in the platform
backend, not in `Gradient.cpp`; it destroys the platform resource and leaves
the handle null. -/
def platformDestroy (g : State) : State :=
  { g with m_gradient := none }

/-- The method `Gradient::adjustParametersForTiledDrawing`. `isEmpty` is
`FloatRect::isEmpty`, which is declared outside `Gradient.cpp`. The result is
the gradient, `size` and `srcRect` after the call. -/
def adjustParametersForTiledDrawing (isEmpty : FloatRect → Bool) (g : State)
    (size : IntSize) (srcRect : FloatRect) : State × IntSize × FloatRect :=
  if g.m_radial then (g, size, srcRect)
  else if isEmpty srcRect then (g, size, srcRect)
  else if g.m_p0.x = g.m_p1.x then
    (g, { size with width := 1 }, { srcRect with width := 1, x := 0 })
  else if g.m_p0.y ≠ g.m_p1.y then (g, size, srcRect)
  else (g, { size with height := 1 }, { srcRect with height := 1, y := 0 })

/-- The method `Gradient::addColorStop(const Gradient::ColorStop&)`. -/
def addColorStop (g : State) (stop : ColorStop) : State :=
  platformDestroy { g with m_stops := g.m_stops ++ [stop], m_stopsSorted := false }

/-- The comparator `compareStops`. -/
def compareStops (a b : ColorStop) : Bool :=
  decide (a.stop < b.stop)

/-- One insertion of the stable sort: `x`, which stood before every element of
the list, goes in front of the first element that does not compare below it. -/
def stable_sort.insert (x : ColorStop) : List ColorStop → List ColorStop
  | [] => [x]
  | y :: ys => if compareStops y x then y :: stable_sort.insert x ys else x :: y :: ys

/-- The call `std::stable_sort(m_stops.begin(), m_stops.end(), compareStops)`
of the C++ standard library, as a stable insertion sort with the comparator of
the source. The list it returns is the only one that is ordered by position and
keeps stops of equal position in their order (`stable_sort_unique`), so the
choice of algorithm does not show in the result. -/
def stable_sort : List ColorStop → List ColorStop
  | [] => []
  | x :: xs => stable_sort.insert x (stable_sort xs)

/-- The method `Gradient::sortStopsIfNecessary`. -/
def sortStopsIfNecessary (g : State) : State :=
  if g.m_stopsSorted then g
  else
    let g1 : State := { g with m_stopsSorted := true }
    if g1.m_stops.length = 0 then g1
    else { g1 with m_stops := stable_sort g1.m_stops }

/-- The element access `m_stops[i]` with an `int` index. -/
def stopAt (stops : List ColorStop) (i : Int) : Option ColorStop :=
  if 0 ≤ i then stops[i.toNat]? else none

/-- The `for` loop of `Gradient::findStop`, from the value `i` of the loop
variable; the result is its value when the loop is left. -/
def findStop.loop (stops : List ColorStop) (value : ℚ) (numStops : Int) (i : Int) :
    Option Int :=
  if i < numStops - 1 then
    match stopAt stops i with
    | none => none
    | some s => if value < s.stop then some i else findStop.loop stops value numStops (i + 1)
  else some i
termination_by (numStops - 1 - i).toNat
decreasing_by omega

/-- The method `Gradient::findStop`: the index it returns and the state with
the cursor `m_lastStop` it leaves. -/
def findStop (g : State) (value : ℚ) : Option (Int × State) :=
  let numStops : Int := g.m_stops.length
  match stopAt g.m_stops g.m_lastStop with
  | none => none
  | some s =>
    let i : Int := if value < s.stop then 1 else g.m_lastStop + 1
    match findStop.loop g.m_stops value numStops i with
    | none => none
    | some i => some (i - 1, { g with m_lastStop := i - 1 })

/-- The sort-on-read block at the head of `Gradient::getColor`. -/
def getColor.sortOnRead (g : State) : State :=
  if !g.m_stopsSorted then
    { g with
      m_stops := if g.m_stops.length ≠ 0 then stable_sort g.m_stops else g.m_stops,
      m_stopsSorted := true }
  else g

/-- The method `Gradient::getColor`: the colour written through the four
pointers and the state it leaves. -/
def getColor (g : State) (value : ℚ) : Option (RGBA × State) :=
  if g.m_stops.isEmpty then some (⟨0, 0, 0, 0⟩, g)
  else
    let g1 := getColor.sortOnRead g
    match g1.m_stops[0]?, g1.m_stops.head? with
    | some first, some front =>
      if value ≤ 0 ∨ value ≤ first.stop then
        some (⟨front.red, front.green, front.blue, front.alpha⟩, g1)
      else
        match g1.m_stops[g1.m_stops.length - 1]?, g1.m_stops.getLast? with
        | some last, some back =>
          if value ≥ 1 ∨ value ≥ last.stop then
            some (⟨back.red, back.green, back.blue, back.alpha⟩, g1)
          else
            match findStop g1 value with
            | none => none
            | some (stop, g2) =>
              match stopAt g2.m_stops stop, stopAt g2.m_stops (stop + 1) with
              | some lastStop, some nextStop =>
                let stopFraction := (value - lastStop.stop) / (nextStop.stop - lastStop.stop)
                some (⟨lastStop.red + (nextStop.red - lastStop.red) * stopFraction,
                       lastStop.green + (nextStop.green - lastStop.green) * stopFraction,
                       lastStop.blue + (nextStop.blue - lastStop.blue) * stopFraction,
                       lastStop.alpha + (nextStop.alpha - lastStop.alpha) * stopFraction⟩, g2)
              | _, _ => none
        | _, _ => none
    | _, _ => none

/-- The loop of `Gradient::hasAlpha` over the stops in index order. -/
def hasAlpha.loop : List ColorStop → Bool
  | [] => false
  | s :: rest => if s.alpha < 1 then true else hasAlpha.loop rest

/-- The method `Gradient::hasAlpha`. -/
def hasAlpha (g : State) : Bool :=
  hasAlpha.loop g.m_stops

/-- The stops are in non-decreasing order of position. -/
def SortedStops (stops : List ColorStop) : Prop :=
  stops.Pairwise (fun a b => a.stop ≤ b.stop)

/-- Modelled from the spec: `platformInit` is defined in the platform backend,
not in `Gradient.cpp`; it is a placeholder that leaves the handle null. -/
def platformInit (g : State) : State :=
  { g with m_gradient := none }

/-- The constructor `Gradient::Gradient(const FloatPoint&, const FloatPoint&)`.
The transform member is default-constructed, the identity. -/
def linear (p0 p1 : FloatPoint) : State :=
  platformInit
    { m_radial := false, m_p0 := p0, m_p1 := p1, m_r0 := 0, m_r1 := 0, m_aspectRatio := 1,
      m_stops := [], m_stopsSorted := false, m_lastStop := 0,
      m_spreadMethod := GradientSpreadMethod.SpreadMethodPad,
      m_gradientSpaceTransformation := ⟨1, 0, 0, 1, 0, 0⟩, m_gradient := none }

/-- The constructor
`Gradient::Gradient(const FloatPoint&, float, const FloatPoint&, float, float)`. -/
def radial (p0 : FloatPoint) (r0 : ℚ) (p1 : FloatPoint) (r1 : ℚ) (aspectRatio : ℚ) : State :=
  platformInit
    { m_radial := true, m_p0 := p0, m_p1 := p1, m_r0 := r0, m_r1 := r1,
      m_aspectRatio := aspectRatio,
      m_stops := [], m_stopsSorted := false, m_lastStop := 0,
      m_spreadMethod := GradientSpreadMethod.SpreadMethodPad,
      m_gradientSpaceTransformation := ⟨1, 0, 0, 1, 0, 0⟩, m_gradient := none }

/-- A sequence of `getColor` calls on one gradient with nothing in between,
each on the state the call before it left: the colours in call order and the
final state. -/
def getColorSeq : State → List ℚ → Option (List RGBA × State)
  | g, [] => some ([], g)
  | g, v :: vs =>
    match getColor g v with
    | none => none
    | some (c, g1) =>
      match getColorSeq g1 vs with
      | none => none
      | some (cs, g2) => some (c :: cs, g2)

/-- The loop of the free function
`equalGradient(const Vector<ColorStop>&, const Vector<ColorStop>)`, from the
value `i` of the loop variable. -/
def equalGradient.loop (a b : List ColorStop) (i : Nat) : Option Bool :=
  if i < a.length then
    match a[i]?, b[i]? with
    | some x, some y =>
      if x.stop ≠ y.stop ∨ x.red ≠ y.red ∨ x.green ≠ y.green ∨ x.blue ≠ y.blue ∨
          x.blue ≠ y.blue ∨ x.alpha ≠ y.alpha then some false
      else equalGradient.loop a b (i + 1)
    | _, _ => none
  else some true
termination_by a.length - i

/-- The free function
`equalGradient(const Vector<ColorStop>&, const Vector<ColorStop>)`. -/
def equalGradient (a b : List ColorStop) : Option Bool :=
  if a.length ≠ b.length then some false
  else equalGradient.loop a b 0

/-- The free function `equalGradient(const Gradient*, const Gradient*)`; a
pointer is `none` when null. -/
def equalGradientPtr (a b : Option State) : Bool :=
  if a.isNone && b.isNone then true
  else if (a.isNone && b.isSome) || (a.isSome && b.isNone) then false
  else true

/-- The body of `Gradient::getColor` with the function called at the
`findStop(value)` call site as a parameter; `getColor` is this function with
`findStop`. -/
def getColor.withFinder (finder : State → ℚ → Option (Int × State)) (g : State) (value : ℚ) :
    Option (RGBA × State) :=
  if g.m_stops.isEmpty then some (⟨0, 0, 0, 0⟩, g)
  else
    let g1 := getColor.sortOnRead g
    match g1.m_stops[0]?, g1.m_stops.head? with
    | some first, some front =>
      if value ≤ 0 ∨ value ≤ first.stop then
        some (⟨front.red, front.green, front.blue, front.alpha⟩, g1)
      else
        match g1.m_stops[g1.m_stops.length - 1]?, g1.m_stops.getLast? with
        | some last, some back =>
          if value ≥ 1 ∨ value ≥ last.stop then
            some (⟨back.red, back.green, back.blue, back.alpha⟩, g1)
          else
            match finder g1 value with
            | none => none
            | some (stop, g2) =>
              match stopAt g2.m_stops stop, stopAt g2.m_stops (stop + 1) with
              | some lastStop, some nextStop =>
                let stopFraction := (value - lastStop.stop) / (nextStop.stop - lastStop.stop)
                some (⟨lastStop.red + (nextStop.red - lastStop.red) * stopFraction,
                       lastStop.green + (nextStop.green - lastStop.green) * stopFraction,
                       lastStop.blue + (nextStop.blue - lastStop.blue) * stopFraction,
                       lastStop.alpha + (nextStop.alpha - lastStop.alpha) * stopFraction⟩, g2)
              | _, _ => none
        | _, _ => none
    | _, _ => none

/-- The method `Gradient::addColorStop(float, const KdColor&)`. The colour type
and its `getRGBA`, which are declared outside `Gradient.cpp`, are parameters. -/
def addColorStopColor {KdColor : Type} (getRGBA : KdColor → RGBA) (g : State) (value : ℚ)
    (color : KdColor) : State :=
  let rgba := getRGBA color
  platformDestroy
    { g with
      m_stops := g.m_stops ++ [ColorStop.mk value rgba.r rgba.g rgba.b rgba.a],
      m_stopsSorted := false }

/-- The method `Gradient::setSpreadMethod`. -/
def setSpreadMethod (g : State) (spreadMethod : GradientSpreadMethod) : State :=
  { g with m_spreadMethod := spreadMethod }

/-- Modelled from the spec: `setPlatformGradientSpaceTransform` is defined in
the platform backend, not in `Gradient.cpp`; it hands the transform to the
platform resource, tolerates a null handle, and changes no member. -/
def setPlatformGradientSpaceTransform (g : State) (_t : AffineTransform) : State :=
  g

/-- The method `Gradient::setGradientSpaceTransform`. -/
def setGradientSpaceTransform (g : State) (gradientSpaceTransformation : AffineTransform) :
    State :=
  setPlatformGradientSpaceTransform
    { g with m_gradientSpaceTransformation := gradientSpaceTransformation }
    gradientSpaceTransformation

/-- The five `ASSERT`s at the head of `Gradient::findStop`. -/
def findStop.asserts (g : State) (value : ℚ) : Prop :=
  value ≥ 0 ∧ value ≤ 1 ∧ g.m_stopsSorted = true ∧ (g.m_stops.length : Int) ≥ 2 ∧
    g.m_lastStop < (g.m_stops.length : Int) - 1

instance (g : State) (value : ℚ) : Decidable (findStop.asserts g value) := by
  unfold findStop.asserts
  infer_instance

/-- The predicate "`m_stopsSorted` implies that the stops are in non-decreasing
order of position". -/
def stopsSortedInvariant (g : State) : Prop :=
  g.m_stopsSorted = true → SortedStops g.m_stops

/-- The state invariant: the sortedness predicate, and a cursor that is 0 or a
valid interval index. -/
def Invariant (g : State) : Prop :=
  stopsSortedInvariant g ∧ 0 ≤ g.m_lastStop ∧
    (g.m_lastStop = 0 ∨ g.m_lastStop < (g.m_stops.length : Int) - 1)

/-- The states a gradient takes: those the two constructors build, closed under
the calls of `Gradient.cpp`, with `getColor` called on values in [0,1].
`hasAlpha` writes no member and leaves the state as it is. -/
inductive Reachable : State → Prop where
  | linear (p0 p1 : FloatPoint) : Reachable (linear p0 p1)
  | radial (p0 : FloatPoint) (r0 : ℚ) (p1 : FloatPoint) (r1 : ℚ) (aspectRatio : ℚ) :
      Reachable (radial p0 r0 p1 r1 aspectRatio)
  | addColorStop {g : State} (stop : ColorStop) :
      Reachable g → Reachable (addColorStop g stop)
  | addColorStopColor {KdColor : Type} (getRGBA : KdColor → RGBA) {g : State} (value : ℚ)
      (color : KdColor) : Reachable g → Reachable (addColorStopColor getRGBA g value color)
  | sortStopsIfNecessary {g : State} : Reachable g → Reachable (sortStopsIfNecessary g)
  | getColor {g g' : State} (value : ℚ) (c : RGBA) :
      Reachable g → 0 ≤ value → value ≤ 1 → getColor g value = some (c, g') → Reachable g'
  | hasAlpha {g : State} (b : Bool) : Reachable g → hasAlpha g = b → Reachable g
  | setSpreadMethod {g : State} (spreadMethod : GradientSpreadMethod) :
      Reachable g → Reachable (setSpreadMethod g spreadMethod)
  | setGradientSpaceTransform {g : State} (t : AffineTransform) :
      Reachable g → Reachable (setGradientSpaceTransform g t)
  | adjustParametersForTiledDrawing (isEmpty : FloatRect → Bool) {g : State} (size : IntSize)
      (srcRect : FloatRect) :
      Reachable g → Reachable (adjustParametersForTiledDrawing isEmpty g size srcRect).1

/-- One call in a history of a gradient: a stop insertion, a colour query, or
an explicit sort. -/
inductive Op where
  | add (stop : ColorStop)
  | query (value : ℚ)
  | sort

/-- The state after one call of a history. -/
def Op.run (g : State) : Op → Option State
  | Op.add stop => some (addColorStop g stop)
  | Op.query value =>
    match getColor g value with
    | none => none
    | some (_, g') => some g'
  | Op.sort => some (sortStopsIfNecessary g)

/-- The state after a history of calls, in order. -/
def runOps : State → List Op → Option State
  | g, [] => some g
  | g, op :: ops =>
    match Op.run g op with
    | none => none
    | some g' => runOps g' ops

/-- The stops a history adds, in order of insertion. -/
def addedStops : List Op → List ColorStop
  | [] => []
  | Op.add stop :: ops => stop :: addedStops ops
  | Op.query _ :: ops => addedStops ops
  | Op.sort :: ops => addedStops ops

/-! ## Example gradients -/

/-- A linear gradient with a stop below 0: black transparent at -1, white at 1/2. -/
def belowZeroGradient : State :=
  addColorStop (addColorStop (linear ⟨0, 0⟩ ⟨1, 0⟩) ⟨-1, 0, 0, 0, 0⟩) ⟨1/2, 1, 1, 1, 1⟩

/-- A linear gradient whose two stops both stand at 1: red, then blue. -/
def allAtOneGradient : State :=
  addColorStop (addColorStop (linear ⟨0, 0⟩ ⟨1, 0⟩) ⟨1, 1, 0, 0, 1⟩) ⟨1, 0, 0, 1, 1⟩

/-- A linear gradient with two stops at 1/2 (red, then green) and blue at 1. -/
def coincidentGradient : State :=
  addColorStop (addColorStop (addColorStop (linear ⟨0, 0⟩ ⟨1, 0⟩)
    ⟨1/2, 1, 0, 0, 1⟩) ⟨1/2, 0, 1, 0, 1⟩) ⟨1, 0, 0, 1, 1⟩

/-- A linear gradient with blue at 1, red at 0 and green at 1/2, added in that order. -/
def threeStopGradient : State :=
  addColorStop (addColorStop (addColorStop (linear ⟨0, 0⟩ ⟨1, 0⟩)
    ⟨1, 0, 0, 1, 1⟩) ⟨0, 1, 0, 0, 1⟩) ⟨1/2, 0, 1, 0, 1⟩

/-- The three-stop gradient after a query has sorted it and left the cursor at
the interval from 1/2 to 1. -/
def threeStopGradientQueried : State :=
  { getColor.sortOnRead threeStopGradient with m_lastStop := 1 }

/-- A linear gradient with one stop, at position 3/10. -/
def singleStopGradient : State :=
  addColorStop (linear ⟨0, 0⟩ ⟨1, 0⟩) ⟨3/10, 1/5, 2/5, 3/5, 1/2⟩

/-- A linear gradient with stops at 0, 1/4, 1/2, 3/4 and 1, grey levels rising
from black to white. -/
def fiveStopGradient : State :=
  addColorStop (addColorStop (addColorStop (addColorStop (addColorStop (linear ⟨0, 0⟩ ⟨1, 0⟩)
    ⟨0, 0, 0, 0, 1⟩) ⟨1/4, 1/4, 1/4, 1/4, 1⟩) ⟨1/2, 1/2, 1/2, 1/2, 1⟩)
    ⟨3/4, 3/4, 3/4, 3/4, 1⟩) ⟨1, 1, 1, 1, 1⟩

/-- The five-stop gradient after the query at 4/5: sorted, with the cursor at
the interval from 3/4 to 1. -/
def fiveStopGradientQueried : State :=
  { getColor.sortOnRead fiveStopGradient with m_lastStop := 3 }

/-! ## The stable sort -/

theorem stable_sort.insert_perm (x : ColorStop) (l : List ColorStop) :
    (stable_sort.insert x l).Perm (x :: l) := by
  induction l with
  | nil => exact List.Perm.refl _
  | cons y ys ih =>
    unfold stable_sort.insert
    split
    · exact (List.Perm.cons y ih).trans (List.Perm.swap x y ys)
    · exact List.Perm.refl _

theorem stable_sort_perm (l : List ColorStop) : (stable_sort l).Perm l := by
  induction l with
  | nil => exact List.Perm.refl _
  | cons x xs ih =>
    exact (stable_sort.insert_perm x (stable_sort xs)).trans (List.Perm.cons x ih)

theorem stable_sort_length (l : List ColorStop) : (stable_sort l).length = l.length :=
  (stable_sort_perm l).length_eq

theorem stable_sort_ne_nil {l : List ColorStop} (h : l ≠ []) : stable_sort l ≠ [] := by
  intro h0
  have hl := stable_sort_length l
  rw [h0] at hl
  exact h (List.length_eq_zero.mp hl.symm)

theorem stable_sort.insert_sorted (x : ColorStop) (l : List ColorStop) (h : SortedStops l) :
    SortedStops (stable_sort.insert x l) := by
  induction l with
  | nil => simp [stable_sort.insert, SortedStops]
  | cons y ys ih =>
    unfold SortedStops at h ih ⊢
    rw [List.pairwise_cons] at h
    unfold stable_sort.insert
    split
    · rename_i hyx
      have hlt : y.stop < x.stop := by simpa [compareStops] using hyx
      rw [List.pairwise_cons]
      refine ⟨?_, ih h.2⟩
      intro z hz
      rcases List.mem_cons.mp ((List.Perm.mem_iff (stable_sort.insert_perm x ys)).mp hz)
        with hz1 | hz1
      · rw [hz1]; exact le_of_lt hlt
      · exact h.1 z hz1
    · rename_i hyx
      have hle : x.stop ≤ y.stop := by
        have : ¬ y.stop < x.stop := by simpa [compareStops] using hyx
        exact not_lt.mp this
      rw [List.pairwise_cons]
      refine ⟨?_, List.pairwise_cons.mpr h⟩
      intro z hz
      rcases List.mem_cons.mp hz with hz1 | hz1
      · rw [hz1]; exact hle
      · exact le_trans hle (h.1 z hz1)

theorem stable_sort_sorted (l : List ColorStop) : SortedStops (stable_sort l) := by
  induction l with
  | nil => simp [stable_sort, SortedStops]
  | cons x xs ih => exact stable_sort.insert_sorted x _ ih

theorem stable_sort.insert_filter (p : ℚ) (x : ColorStop) (l : List ColorStop) :
    (stable_sort.insert x l).filter (fun s => decide (s.stop = p))
      = (x :: l).filter (fun s => decide (s.stop = p)) := by
  induction l with
  | nil => rfl
  | cons y ys ih =>
    unfold stable_sort.insert
    split
    · rename_i hyx
      have hlt : y.stop < x.stop := by simpa [compareStops] using hyx
      by_cases hy : y.stop = p
      · have hx : ¬ x.stop = p := by
          intro hx; rw [hy, hx] at hlt; exact lt_irrefl _ hlt
        simp [List.filter_cons, hy, hx, ih]
      · simp [List.filter_cons, hy, ih]
    · rfl

theorem stable_sort_filter (p : ℚ) (l : List ColorStop) :
    (stable_sort l).filter (fun s => decide (s.stop = p))
      = l.filter (fun s => decide (s.stop = p)) := by
  induction l with
  | nil => rfl
  | cons x xs ih =>
    show (stable_sort.insert x (stable_sort xs)).filter _ = _
    rw [stable_sort.insert_filter, List.filter_cons, List.filter_cons, ih]

theorem stable_sort_eq_self {l : List ColorStop} (h : SortedStops l) : stable_sort l = l := by
  induction l with
  | nil => rfl
  | cons x xs ih =>
    unfold SortedStops at h ih
    rw [List.pairwise_cons] at h
    show stable_sort.insert x (stable_sort xs) = x :: xs
    rw [ih h.2]
    cases xs with
    | nil => rfl
    | cons y ys =>
      have hxy : x.stop ≤ y.stop := h.1 y (List.mem_cons_self y ys)
      have : compareStops y x = false := by
        simp [compareStops, not_lt.mpr hxy]
      simp [stable_sort.insert, this]

/-- Two sorted lists that hold, for every position, the same sequence of stops
at that position are equal. -/
theorem sorted_eq_of_filter_eq : ∀ (l1 l2 : List ColorStop),
    SortedStops l1 → SortedStops l2 →
    (∀ p : ℚ, l1.filter (fun s => decide (s.stop = p))
      = l2.filter (fun s => decide (s.stop = p))) → l1 = l2 := by
  intro l1
  induction l1 with
  | nil =>
    intro l2 _ _ h
    cases l2 with
    | nil => rfl
    | cons y ys =>
      have := h y.stop
      simp [List.filter_cons] at this
  | cons x xs ih =>
    intro l2 h1 h2 h
    cases l2 with
    | nil =>
      have := h x.stop
      simp [List.filter_cons] at this
    | cons y ys =>
      unfold SortedStops at h1 h2
      rw [List.pairwise_cons] at h1 h2
      have hxy : x.stop ≤ y.stop := by
        have hmem : y ∈ (x :: xs).filter (fun s => decide (s.stop = y.stop)) := by
          rw [h y.stop]; simp [List.filter_cons]
        have hy : y ∈ x :: xs := (List.mem_filter.mp hmem).1
        rcases List.mem_cons.mp hy with e | e
        · rw [e]
        · exact h1.1 y e
      have hyx : y.stop ≤ x.stop := by
        have hmem : x ∈ (y :: ys).filter (fun s => decide (s.stop = x.stop)) := by
          rw [← h x.stop]; simp [List.filter_cons]
        have hx : x ∈ y :: ys := (List.mem_filter.mp hmem).1
        rcases List.mem_cons.mp hx with e | e
        · rw [e]
        · exact h2.1 x e
      have hp : y.stop = x.stop := le_antisymm hyx hxy
      have hhead := h x.stop
      simp only [List.filter_cons, hp, decide_True, if_true] at hhead
      have hx : x = y := (List.cons.inj hhead).1
      have htail : ∀ p : ℚ, xs.filter (fun s => decide (s.stop = p))
          = ys.filter (fun s => decide (s.stop = p)) := by
        intro p
        have hq := h p
        by_cases hpx : x.stop = p
        · simp only [List.filter_cons, hp, hpx, decide_True, if_true] at hq
          exact (List.cons.inj hq).2
        · simp only [List.filter_cons, hp, hpx, decide_False] at hq
          simpa using hq
      rw [hx, ih ys h1.2 h2.2 htail]

/-- The stable sort is the only list that is sorted by position and keeps, for
every position, the stops at that position in their original order. -/
theorem stable_sort_unique (l l' : List ColorStop) (hs : SortedStops l')
    (hst : ∀ p : ℚ, l'.filter (fun s => decide (s.stop = p))
      = l.filter (fun s => decide (s.stop = p))) : l' = stable_sort l :=
  sorted_eq_of_filter_eq l' (stable_sort l) hs (stable_sort_sorted l)
    (fun p => (hst p).trans (stable_sort_filter p l).symm)

/-! ## Element access and the interval search -/

theorem stopAt_isSome {s : List ColorStop} {i : Int} (h0 : 0 ≤ i) (h1 : i < s.length) :
    ∃ x, stopAt s i = some x := by
  unfold stopAt
  rw [if_pos h0]
  have hlt : i.toNat < s.length := by omega
  exact ⟨s[i.toNat], List.getElem?_eq_getElem hlt⟩

theorem stopAt_bounds {s : List ColorStop} {i : Int} {a : ColorStop}
    (h : stopAt s i = some a) : 0 ≤ i ∧ i < s.length := by
  unfold stopAt at h
  split at h
  · rename_i h0
    obtain ⟨hlt, -⟩ := List.getElem?_eq_some.mp h
    exact ⟨h0, by omega⟩
  · cases h

theorem stopAt_natCast (s : List ColorStop) (k : Nat) : stopAt s (k : Int) = s[k]? := by
  simp [stopAt]

theorem stopAt_mono {s : List ColorStop} (hs : SortedStops s) {i j : Int} {a b : ColorStop}
    (hi : stopAt s i = some a) (hj : stopAt s j = some b) (hij : i ≤ j) : a.stop ≤ b.stop := by
  have bi := stopAt_bounds hi
  have bj := stopAt_bounds hj
  unfold stopAt at hi hj
  rw [if_pos bi.1] at hi
  rw [if_pos bj.1] at hj
  obtain ⟨hli, hai⟩ := List.getElem?_eq_some.mp hi
  obtain ⟨hlj, hbj⟩ := List.getElem?_eq_some.mp hj
  rcases Nat.lt_or_ge i.toNat j.toNat with hlt | hge
  · have := (List.pairwise_iff_getElem.mp hs) i.toNat j.toNat hli hlj hlt
    rw [hai, hbj] at this
    exact this
  · have heq : i.toNat = j.toNat := by omega
    have hab : a = b := by
      rw [← hai, ← hbj]
      simp only [heq]
    rw [hab]

theorem findStop.loop_spec (s : List ColorStop) (v : ℚ) (n : Int) (hn : n = s.length) :
    ∀ (k : Nat) (i : Int), (n - 1 - i).toNat = k → 1 ≤ i → i ≤ n - 1 →
      (∀ a, stopAt s (i - 1) = some a → a.stop ≤ v) →
      ∃ j, findStop.loop s v n i = some j ∧ i ≤ j ∧ j ≤ n - 1 ∧
        (∀ a, stopAt s (j - 1) = some a → a.stop ≤ v) ∧
        (j < n - 1 → ∀ b, stopAt s j = some b → v < b.stop) := by
  intro k
  induction k with
  | zero =>
    intro i hk h1 hle hprev
    have hi : ¬ i < n - 1 := by omega
    refine ⟨i, ?_, le_refl _, hle, hprev, fun h => absurd h hi⟩
    rw [findStop.loop, if_neg hi]
  | succ k ih =>
    intro i hk h1 hle hprev
    have hi : i < n - 1 := by omega
    obtain ⟨x, hx⟩ := stopAt_isSome (s := s) (i := i) (by omega) (by omega)
    rw [findStop.loop, if_pos hi, hx]
    by_cases hv : v < x.stop
    · refine ⟨i, by simp [hv], le_refl _, hle, hprev, ?_⟩
      intro _ b hb
      rw [hx] at hb
      cases hb
      exact hv
    · have hstep : ∀ a, stopAt s (i + 1 - 1) = some a → a.stop ≤ v := by
        intro a ha
        have hii : i + 1 - 1 = i := by omega
        rw [hii, hx] at ha
        cases ha
        exact not_lt.mp hv
      obtain ⟨j, hj, hij, hjn, hjp, hjq⟩ := ih (i + 1) (by omega) (by omega) (by omega) hstep
      refine ⟨j, ?_, by omega, hjn, hjp, hjq⟩
      simp only [hv, if_false]
      exact hj

theorem findStop_spec (g : State) (v : ℚ)
    (hlen : 2 ≤ g.m_stops.length)
    (hcur : 0 ≤ g.m_lastStop ∧ g.m_lastStop < (g.m_stops.length : Int) - 1)
    (hlo : ∀ a, stopAt g.m_stops 0 = some a → a.stop < v)
    (hhi : ∀ b, stopAt g.m_stops ((g.m_stops.length : Int) - 1) = some b → v < b.stop) :
    ∃ (j : Int) (a b : ColorStop),
      findStop g v = some (j, { g with m_lastStop := j }) ∧
      0 ≤ j ∧ j < (g.m_stops.length : Int) - 1 ∧
      stopAt g.m_stops j = some a ∧ stopAt g.m_stops (j + 1) = some b ∧
      a.stop ≤ v ∧ v < b.stop := by
  obtain ⟨c, hc⟩ := stopAt_isSome (s := g.m_stops) (i := g.m_lastStop) hcur.1 (by omega)
  have hstart : ∃ i0 : Int, (if v < c.stop then (1 : Int) else g.m_lastStop + 1) = i0 ∧
      1 ≤ i0 ∧ i0 ≤ (g.m_stops.length : Int) - 1 ∧
      (∀ a, stopAt g.m_stops (i0 - 1) = some a → a.stop ≤ v) := by
    by_cases hv : v < c.stop
    · refine ⟨1, by simp [hv], le_refl _, by omega, ?_⟩
      intro a ha
      exact le_of_lt (hlo a (by simpa using ha))
    · refine ⟨g.m_lastStop + 1, by simp [hv], by omega, by omega, ?_⟩
      intro a ha
      have hii : g.m_lastStop + 1 - 1 = g.m_lastStop := by omega
      rw [hii, hc] at ha
      cases ha
      exact not_lt.mp hv
  obtain ⟨i0, hi0, h1, hle, hprev⟩ := hstart
  obtain ⟨j, hj, hij, hjn, hjp, hjq⟩ :=
    findStop.loop_spec g.m_stops v (g.m_stops.length : Int) rfl _ i0 rfl h1 hle hprev
  obtain ⟨a, ha⟩ := stopAt_isSome (s := g.m_stops) (i := j - 1) (by omega) (by omega)
  obtain ⟨b, hb⟩ := stopAt_isSome (s := g.m_stops) (i := j) (by omega) (by omega)
  refine ⟨j - 1, a, b, ?_, by omega, by omega, ha, ?_, hjp a ha, ?_⟩
  · unfold findStop
    simp only [hc, hi0, hj]
  · have hjj : j - 1 + 1 = j := by omega
    rw [hjj]; exact hb
  · rcases lt_or_eq_of_le hjn with hlt | heq
    · exact hjq hlt b hb
    · rw [heq] at hb
      exact hhi b hb

/-! ## The colour query -/

theorem getColor.sortOnRead_eq (g : State)
    (hinv : g.m_stopsSorted = true → SortedStops g.m_stops) :
    getColor.sortOnRead g
      = { g with m_stops := stable_sort g.m_stops, m_stopsSorted := true } := by
  unfold getColor.sortOnRead
  cases hflag : g.m_stopsSorted with
  | false =>
    simp only [Bool.not_false, if_true]
    by_cases hl : g.m_stops.length ≠ 0
    · simp [hl]
    · have hnil : g.m_stops = [] := List.length_eq_zero.mp (not_not.mp hl)
      simp [hnil, stable_sort]
  | true =>
    simp only [Bool.not_true]
    rw [stable_sort_eq_self (hinv hflag)]
    cases g
    simp_all

theorem getColor_unfold (g : State) (v : ℚ) (first last : ColorStop)
    (hf : (getColor.sortOnRead g).m_stops.head? = some first)
    (hl : (getColor.sortOnRead g).m_stops.getLast? = some last)
    (hne : g.m_stops ≠ []) :
    getColor g v =
      if v ≤ 0 ∨ v ≤ first.stop then
        some (⟨first.red, first.green, first.blue, first.alpha⟩, getColor.sortOnRead g)
      else if v ≥ 1 ∨ v ≥ last.stop then
        some (⟨last.red, last.green, last.blue, last.alpha⟩, getColor.sortOnRead g)
      else
        match findStop (getColor.sortOnRead g) v with
        | none => none
        | some (stop, g2) =>
          match stopAt g2.m_stops stop, stopAt g2.m_stops (stop + 1) with
          | some lastStop, some nextStop =>
            some (⟨lastStop.red + (nextStop.red - lastStop.red)
                      * ((v - lastStop.stop) / (nextStop.stop - lastStop.stop)),
                   lastStop.green + (nextStop.green - lastStop.green)
                      * ((v - lastStop.stop) / (nextStop.stop - lastStop.stop)),
                   lastStop.blue + (nextStop.blue - lastStop.blue)
                      * ((v - lastStop.stop) / (nextStop.stop - lastStop.stop)),
                   lastStop.alpha + (nextStop.alpha - lastStop.alpha)
                      * ((v - lastStop.stop) / (nextStop.stop - lastStop.stop))⟩, g2)
          | _, _ => none := by
  have h0 : (getColor.sortOnRead g).m_stops[0]? = some first := by
    rw [← List.head?_eq_getElem?]; exact hf
  have h1 : (getColor.sortOnRead g).m_stops[(getColor.sortOnRead g).m_stops.length - 1]?
      = some last := by
    rw [← List.getLast?_eq_getElem?]; exact hl
  have hemp : g.m_stops.isEmpty = false := by
    cases hs : g.m_stops with
    | nil => exact absurd hs hne
    | cons x xs => rfl
  unfold getColor
  simp only [hemp, Bool.false_eq_true, if_false, h0, hf, h1, hl]

theorem stopAt_zero (s : List ColorStop) : stopAt s 0 = s.head? := by
  rw [List.head?_eq_getElem?]
  exact stopAt_natCast s 0

theorem stopAt_last (s : List ColorStop) (hne : s ≠ []) :
    stopAt s ((s.length : Int) - 1) = s.getLast? := by
  have hpos : 0 < s.length := List.length_pos.mpr hne
  have hc : ((s.length : Int) - 1) = ((s.length - 1 : Nat) : Int) := by omega
  rw [hc, stopAt_natCast, List.getLast?_eq_getElem?]

theorem bracket_unique {s : List ColorStop} (hs : SortedStops s) {v : ℚ} {i j : Int}
    {a b c d : ColorStop}
    (hia : stopAt s i = some a) (hib : stopAt s (i + 1) = some b)
    (hjc : stopAt s j = some c) (hjd : stopAt s (j + 1) = some d)
    (hav : a.stop ≤ v) (hvb : v < b.stop) (hcv : c.stop ≤ v) (hvd : v < d.stop) : i = j := by
  by_contra hne
  rcases lt_or_gt_of_ne hne with hlt | hgt
  · have := stopAt_mono hs hib hjc (by omega)
    exact absurd (lt_of_lt_of_le hvb (le_trans this hcv)) (lt_irrefl _)
  · have := stopAt_mono hs hjd hia (by omega)
    exact absurd (lt_of_lt_of_le hvd (le_trans this hav)) (lt_irrefl _)

theorem ne_nil_of_sorted_head {l : List ColorStop} {first : ColorStop}
    (hf : (stable_sort l).head? = some first) : l ≠ [] := by
  intro h
  rw [h] at hf
  cases hf

theorem getColor_low (g : State) (v : ℚ) (first : ColorStop)
    (hinv : g.m_stopsSorted = true → SortedStops g.m_stops)
    (hf : (stable_sort g.m_stops).head? = some first)
    (hlow : v ≤ 0 ∨ v ≤ first.stop) :
    getColor g v =
      some (⟨first.red, first.green, first.blue, first.alpha⟩, getColor.sortOnRead g) := by
  have hne := ne_nil_of_sorted_head hf
  have hst : (getColor.sortOnRead g).m_stops = stable_sort g.m_stops := by
    rw [getColor.sortOnRead_eq g hinv]
  obtain ⟨last, hl⟩ : ∃ last, (stable_sort g.m_stops).getLast? = some last :=
    ⟨_, List.getLast?_eq_getLast _ (stable_sort_ne_nil hne)⟩
  rw [getColor_unfold g v first last (by rw [hst]; exact hf) (by rw [hst]; exact hl) hne,
    if_pos hlow]

theorem getColor_high (g : State) (v : ℚ) (first last : ColorStop)
    (hinv : g.m_stopsSorted = true → SortedStops g.m_stops)
    (hf : (stable_sort g.m_stops).head? = some first)
    (hl : (stable_sort g.m_stops).getLast? = some last)
    (hnlow : ¬ (v ≤ 0 ∨ v ≤ first.stop))
    (hhigh : v ≥ 1 ∨ v ≥ last.stop) :
    getColor g v =
      some (⟨last.red, last.green, last.blue, last.alpha⟩, getColor.sortOnRead g) := by
  have hne := ne_nil_of_sorted_head hf
  have hst : (getColor.sortOnRead g).m_stops = stable_sort g.m_stops := by
    rw [getColor.sortOnRead_eq g hinv]
  rw [getColor_unfold g v first last (by rw [hst]; exact hf) (by rw [hst]; exact hl) hne,
    if_neg hnlow, if_pos hhigh]

theorem getColor_interp (g : State) (v : ℚ) (first last : ColorStop)
    (hinv : g.m_stopsSorted = true → SortedStops g.m_stops)
    (hcur : 0 ≤ g.m_lastStop ∧ g.m_lastStop < (g.m_stops.length : Int) - 1)
    (hf : (stable_sort g.m_stops).head? = some first)
    (hl : (stable_sort g.m_stops).getLast? = some last)
    (hnlow : ¬ (v ≤ 0 ∨ v ≤ first.stop))
    (hnhigh : ¬ (v ≥ 1 ∨ v ≥ last.stop)) :
    ∃ (j : Int) (a b : ColorStop),
      findStop (getColor.sortOnRead g) v
        = some (j, { getColor.sortOnRead g with m_lastStop := j }) ∧
      0 ≤ j ∧ j < (g.m_stops.length : Int) - 1 ∧
      stopAt (stable_sort g.m_stops) j = some a ∧
      stopAt (stable_sort g.m_stops) (j + 1) = some b ∧
      a.stop ≤ v ∧ v < b.stop ∧
      getColor g v =
        some (⟨a.red + (b.red - a.red) * ((v - a.stop) / (b.stop - a.stop)),
               a.green + (b.green - a.green) * ((v - a.stop) / (b.stop - a.stop)),
               a.blue + (b.blue - a.blue) * ((v - a.stop) / (b.stop - a.stop)),
               a.alpha + (b.alpha - a.alpha) * ((v - a.stop) / (b.stop - a.stop))⟩,
              { getColor.sortOnRead g with m_lastStop := j }) := by
  have hne := ne_nil_of_sorted_head hf
  have hsne := stable_sort_ne_nil hne
  have hst : (getColor.sortOnRead g).m_stops = stable_sort g.m_stops := by
    rw [getColor.sortOnRead_eq g hinv]
  have hcu : (getColor.sortOnRead g).m_lastStop = g.m_lastStop := by
    rw [getColor.sortOnRead_eq g hinv]
  have hlen : (getColor.sortOnRead g).m_stops.length = g.m_stops.length := by
    rw [hst, stable_sort_length]
  push_neg at hnlow hnhigh
  have h2 : 2 ≤ g.m_stops.length := by omega
  have hspec := findStop_spec (getColor.sortOnRead g) v (by rw [hlen]; exact h2)
    (by rw [hcu, hlen]; exact hcur)
    (by
      intro a ha
      rw [hst, stopAt_zero, hf] at ha
      cases ha
      exact hnlow.2)
    (by
      intro b hb
      rw [hst, stopAt_last _ hsne, hl] at hb
      cases hb
      exact hnhigh.2)
  obtain ⟨j, a, b, hfs, hj0, hj1, ha, hb, hav, hvb⟩ := hspec
  rw [hlen] at hj1
  rw [hst] at ha hb
  refine ⟨j, a, b, hfs, hj0, hj1, ha, hb, hav, hvb, ?_⟩
  rw [getColor_unfold g v first last (by rw [hst]; exact hf) (by rw [hst]; exact hl) hne,
    if_neg (by push_neg; exact hnlow), if_neg (by push_neg; exact hnhigh), hfs]
  simp only [hst, ha, hb]


theorem stopAt_of_nonneg (s : List ColorStop) {i : Int} (h : 0 ≤ i) :
    stopAt s i = s[i.toNat]? := by
  unfold stopAt
  rw [if_pos h]

theorem lerp_between (a b t : ℚ) (h0 : 0 ≤ t) (h1 : t ≤ 1) :
    min a b ≤ a + (b - a) * t ∧ a + (b - a) * t ≤ max a b := by
  rcases le_total a b with hab | hab
  · rw [min_eq_left hab, max_eq_right hab]
    constructor <;> nlinarith
  · rw [min_eq_right hab, max_eq_left hab]
    constructor <;> nlinarith

theorem fraction_bounds {p q v : ℚ} (h1 : p ≤ v) (h2 : v < q) :
    0 < q - p ∧ 0 ≤ (v - p) / (q - p) ∧ (v - p) / (q - p) < 1 := by
  have hd : 0 < q - p := by linarith
  refine ⟨hd, div_nonneg (by linarith) (le_of_lt hd), ?_⟩
  rw [div_lt_one hd]
  linarith

theorem getColor_nil (g : State) (v : ℚ) (h : g.m_stops = []) :
    getColor g v = some (⟨0, 0, 0, 0⟩, g) := by
  unfold getColor
  simp [h]

theorem sorted_head_last {l : List ColorStop} (hne : l ≠ []) :
    ∃ first last, (stable_sort l).head? = some first ∧
      (stable_sort l).getLast? = some last := by
  have hs := stable_sort_ne_nil hne
  exact ⟨_, _, List.head?_eq_head hs, List.getLast?_eq_getLast _ hs⟩

/-- Under the state invariant `getColor` returns, and the state it leaves has
the same sorted stops, satisfies the invariant and has a valid cursor. -/
theorem getColor_result (g : State) (v : ℚ)
    (hinv : g.m_stopsSorted = true → SortedStops g.m_stops)
    (hcur : 2 ≤ g.m_stops.length →
      0 ≤ g.m_lastStop ∧ g.m_lastStop < (g.m_stops.length : Int) - 1) :
    ∃ (c : RGBA) (g' : State), getColor g v = some (c, g') ∧
      (g'.m_stopsSorted = true → SortedStops g'.m_stops) ∧
      (2 ≤ g'.m_stops.length →
        0 ≤ g'.m_lastStop ∧ g'.m_lastStop < (g'.m_stops.length : Int) - 1) ∧
      stable_sort g'.m_stops = stable_sort g.m_stops ∧
      (g.m_stops ≠ [] → g'.m_stops = stable_sort g.m_stops ∧ g'.m_stopsSorted = true) := by
  by_cases hne : g.m_stops = []
  · exact ⟨_, _, getColor_nil g v hne, hinv, hcur, rfl, fun h => absurd hne h⟩
  · obtain ⟨first, last, hf, hl⟩ := sorted_head_last hne
    have hso := getColor.sortOnRead_eq g hinv
    have hss : stable_sort (stable_sort g.m_stops) = stable_sort g.m_stops :=
      stable_sort_eq_self (stable_sort_sorted _)
    have hgood : (((getColor.sortOnRead g).m_stopsSorted = true →
          SortedStops (getColor.sortOnRead g).m_stops) ∧
        (2 ≤ (getColor.sortOnRead g).m_stops.length →
          0 ≤ (getColor.sortOnRead g).m_lastStop ∧
          (getColor.sortOnRead g).m_lastStop
            < ((getColor.sortOnRead g).m_stops.length : Int) - 1) ∧
        stable_sort (getColor.sortOnRead g).m_stops = stable_sort g.m_stops ∧
        (g.m_stops ≠ [] → (getColor.sortOnRead g).m_stops = stable_sort g.m_stops ∧
          (getColor.sortOnRead g).m_stopsSorted = true)) := by
      rw [hso]
      refine ⟨fun _ => stable_sort_sorted _, ?_, hss, fun _ => ⟨rfl, rfl⟩⟩
      simp only [stable_sort_length]
      exact hcur
    by_cases hlow : v ≤ 0 ∨ v ≤ first.stop
    · exact ⟨_, _, getColor_low g v first hinv hf hlow, hgood⟩
    · by_cases hhigh : v ≥ 1 ∨ v ≥ last.stop
      · exact ⟨_, _, getColor_high g v first last hinv hf hl hlow hhigh, hgood⟩
      · have h2 : 2 ≤ g.m_stops.length := by
          rcases Nat.lt_or_ge g.m_stops.length 2 with hlt | hge
          · exfalso
            have hlen1 : (stable_sort g.m_stops).length = 1 := by
              have hpos : 0 < g.m_stops.length := List.length_pos.mpr hne
              rw [stable_sort_length]; omega
            obtain ⟨x, hx⟩ := List.length_eq_one.mp hlen1
            rw [hx] at hf hl
            simp at hf hl
            push_neg at hlow hhigh
            rw [← hf] at hlow
            rw [← hl] at hhigh
            exact absurd (lt_trans hlow.2 hhigh.2) (lt_irrefl _)
          · exact hge
        obtain ⟨j, a, b, -, hj0, hj1, -, -, -, -, hget⟩ :=
          getColor_interp g v first last hinv (hcur h2) hf hl hlow hhigh
        refine ⟨_, _, hget, ?_⟩
        rw [hso]
        refine ⟨fun _ => stable_sort_sorted _, ?_, hss, fun _ => ⟨rfl, rfl⟩⟩
        simp only [stable_sort_length]
        exact fun _ => ⟨hj0, hj1⟩

/-- The colour `getColor` returns is determined by the sorted stops and the
value: two states with the same sorted stops give the same colour. -/
theorem getColor_colour_eq (g1 g2 : State) (v : ℚ)
    (hinv1 : g1.m_stopsSorted = true → SortedStops g1.m_stops)
    (hinv2 : g2.m_stopsSorted = true → SortedStops g2.m_stops)
    (hcur1 : 2 ≤ g1.m_stops.length →
      0 ≤ g1.m_lastStop ∧ g1.m_lastStop < (g1.m_stops.length : Int) - 1)
    (hcur2 : 2 ≤ g2.m_stops.length →
      0 ≤ g2.m_lastStop ∧ g2.m_lastStop < (g2.m_stops.length : Int) - 1)
    (hs : stable_sort g1.m_stops = stable_sort g2.m_stops) :
    ∃ (c : RGBA) (s1 s2 : State),
      getColor g1 v = some (c, s1) ∧ getColor g2 v = some (c, s2) := by
  have hlen : g1.m_stops.length = g2.m_stops.length := by
    rw [← stable_sort_length g1.m_stops, ← stable_sort_length g2.m_stops, hs]
  by_cases hne : g1.m_stops = []
  · have hne2 : g2.m_stops = [] := by
      rw [hne] at hlen
      exact List.length_eq_zero.mp hlen.symm
    exact ⟨_, _, _, getColor_nil g1 v hne, getColor_nil g2 v hne2⟩
  · obtain ⟨first, last, hf, hl⟩ := sorted_head_last hne
    have hf2 := hf
    have hl2 := hl
    rw [hs] at hf2 hl2
    by_cases hlow : v ≤ 0 ∨ v ≤ first.stop
    · exact ⟨_, _, _, getColor_low g1 v first hinv1 hf hlow,
        getColor_low g2 v first hinv2 hf2 hlow⟩
    · by_cases hhigh : v ≥ 1 ∨ v ≥ last.stop
      · exact ⟨_, _, _, getColor_high g1 v first last hinv1 hf hl hlow hhigh,
          getColor_high g2 v first last hinv2 hf2 hl2 hlow hhigh⟩
      · have h2 : 2 ≤ g1.m_stops.length := by
          rcases Nat.lt_or_ge g1.m_stops.length 2 with hlt | hge
          · exfalso
            have hlen1 : (stable_sort g1.m_stops).length = 1 := by
              have hpos : 0 < g1.m_stops.length := List.length_pos.mpr hne
              rw [stable_sort_length]; omega
            obtain ⟨x, hx⟩ := List.length_eq_one.mp hlen1
            rw [hx] at hf hl
            simp at hf hl
            push_neg at hlow hhigh
            rw [← hf] at hlow
            rw [← hl] at hhigh
            exact absurd (lt_trans hlow.2 hhigh.2) (lt_irrefl _)
          · exact hge
        obtain ⟨j, a, b, -, -, -, ha, hb, hav, hvb, hget⟩ :=
          getColor_interp g1 v first last hinv1 (hcur1 h2) hf hl hlow hhigh
        obtain ⟨k, c, d, -, -, -, hc, hd, hcv, hvd, hget2⟩ :=
          getColor_interp g2 v first last hinv2 (hcur2 (hlen ▸ h2)) hf2 hl2 hlow hhigh
        rw [← hs] at hc hd
        have hjk : j = k :=
          bracket_unique (stable_sort_sorted g1.m_stops) ha hb hc hd hav hvb hcv hvd
        rw [← hjk, ha] at hc
        rw [← hjk, hb] at hd
        cases hc
        cases hd
        exact ⟨_, _, _, hget, hget2⟩

/-- A run of queries from a state `g` returns, for each value, the colour a
single query returns on any state `g0` with the same sorted stops. -/
theorem getColorSeq_spec (g0 : State)
    (hinv0 : g0.m_stopsSorted = true → SortedStops g0.m_stops)
    (hcur0 : 2 ≤ g0.m_stops.length →
      0 ≤ g0.m_lastStop ∧ g0.m_lastStop < (g0.m_stops.length : Int) - 1) :
    ∀ (values : List ℚ) (g : State),
      (g.m_stopsSorted = true → SortedStops g.m_stops) →
      (2 ≤ g.m_stops.length →
        0 ≤ g.m_lastStop ∧ g.m_lastStop < (g.m_stops.length : Int) - 1) →
      stable_sort g.m_stops = stable_sort g0.m_stops →
      ∃ (cs : List RGBA) (g' : State), getColorSeq g values = some (cs, g') ∧
        List.Forall₂ (fun v c => ∃ s, getColor g0 v = some (c, s)) values cs := by
  intro values
  induction values with
  | nil =>
    intro g _ _ _
    exact ⟨[], g, rfl, List.Forall₂.nil⟩
  | cons v vs ih =>
    intro g hinv hcur hs
    obtain ⟨c, s1, s2, h1, h2⟩ := getColor_colour_eq g g0 v hinv hinv0 hcur hcur0 hs
    obtain ⟨c', g1, hget, hinv1, hcur1, hs1, -⟩ := getColor_result g v hinv hcur
    rw [h1] at hget
    cases hget
    obtain ⟨cs, g', hseq, hall⟩ := ih s1 hinv1 hcur1 (hs1.trans hs)
    refine ⟨c :: cs, g', ?_, List.Forall₂.cons ⟨s2, h2⟩ hall⟩
    simp only [getColorSeq, h1, hseq]

/-! ## The equality helper -/

theorem ColorStop.eq_iff (x y : ColorStop) :
    x = y ↔ x.stop = y.stop ∧ x.red = y.red ∧ x.green = y.green ∧ x.blue = y.blue ∧
      x.alpha = y.alpha := by
  constructor
  · intro h
    rw [h]
    exact ⟨rfl, rfl, rfl, rfl, rfl⟩
  · intro h
    cases x
    cases y
    simp only [ColorStop.mk.injEq]
    exact h

theorem equalGradient.loop_correct (a b : List ColorStop) (hlen : a.length = b.length) :
    ∀ (n i : Nat), a.length - i = n →
      (∃ r, equalGradient.loop a b i = some r) ∧
      (equalGradient.loop a b i = some true ↔
        ∀ k, i ≤ k → k < a.length → a[k]? = b[k]?) := by
  intro n
  induction n with
  | zero =>
    intro i hi
    have hge : ¬ i < a.length := by omega
    rw [equalGradient.loop, if_neg hge]
    refine ⟨⟨true, rfl⟩, ?_⟩
    constructor
    · intro _ k hk1 hk2
      omega
    · intro _
      rfl
  | succ n ih =>
    intro i hi
    have hlt : i < a.length := by omega
    have hltb : i < b.length := by omega
    have hx : a[i]? = some a[i] := List.getElem?_eq_getElem hlt
    have hy : b[i]? = some b[i] := List.getElem?_eq_getElem hltb
    obtain ⟨hex, hiff⟩ := ih (i + 1) (by omega)
    rw [equalGradient.loop, if_pos hlt, hx, hy]
    by_cases hne : a[i].stop ≠ b[i].stop ∨ a[i].red ≠ b[i].red ∨ a[i].green ≠ b[i].green ∨
        a[i].blue ≠ b[i].blue ∨ a[i].blue ≠ b[i].blue ∨ a[i].alpha ≠ b[i].alpha
    · simp only [hne, if_true]
      refine ⟨⟨false, rfl⟩, ?_⟩
      constructor
      · intro h
        cases h
      · intro h
        exfalso
        have heq := h i (le_refl i) hlt
        rw [hx, hy] at heq
        have hxy : a[i] = b[i] := Option.some.inj heq
        rw [hxy] at hne
        simp at hne
    · simp only [hne, if_false]
      refine ⟨hex, ?_⟩
      rw [hiff]
      have hxy : a[i] = b[i] := by
        rw [ColorStop.eq_iff]
        push_neg at hne
        exact ⟨hne.1, hne.2.1, hne.2.2.1, hne.2.2.2.1, hne.2.2.2.2.2⟩
      constructor
      · intro h k hk1 hk2
        rcases Nat.eq_or_lt_of_le hk1 with e | e
        · rw [← e, hx, hy, hxy]
        · exact h k e hk2
      · intro h k hk1 hk2
        exact h k (by omega) hk2

theorem getColor_eq_withFinder (g : State) (value : ℚ) :
    getColor g value = getColor.withFinder findStop g value := rfl

theorem getColor.sortOnRead_single (g : State) (s : ColorStop) (h : g.m_stops = [s]) :
    (getColor.sortOnRead g).m_stops = [s] := by
  unfold getColor.sortOnRead
  cases hflag : g.m_stopsSorted <;> simp [h, stable_sort, stable_sort.insert]

theorem getColor.sortOnRead_lastStop (g : State) :
    (getColor.sortOnRead g).m_lastStop = g.m_lastStop := by
  unfold getColor.sortOnRead
  cases hflag : g.m_stopsSorted <;> simp

/-- The colour at a value in the interpolation branch, from any pair of
adjacent sorted stops that brackets the value. -/
theorem getColor_at_bracket (g : State) (v : ℚ) (first : ColorStop) (i : Nat)
    (a b : ColorStop)
    (hinv : g.m_stopsSorted = true → SortedStops g.m_stops)
    (hcur : 0 ≤ g.m_lastStop ∧ g.m_lastStop < (g.m_stops.length : Int) - 1)
    (hf : (stable_sort g.m_stops).head? = some first)
    (hnlow : ¬ (v ≤ 0 ∨ v ≤ first.stop)) (hv1 : v < 1)
    (ha : (stable_sort g.m_stops)[i]? = some a)
    (hb : (stable_sort g.m_stops)[i + 1]? = some b)
    (hav : a.stop ≤ v) (hvb : v < b.stop) :
    getColor g v =
      some (⟨a.red + (b.red - a.red) * ((v - a.stop) / (b.stop - a.stop)),
             a.green + (b.green - a.green) * ((v - a.stop) / (b.stop - a.stop)),
             a.blue + (b.blue - a.blue) * ((v - a.stop) / (b.stop - a.stop)),
             a.alpha + (b.alpha - a.alpha) * ((v - a.stop) / (b.stop - a.stop))⟩,
            { getColor.sortOnRead g with m_lastStop := (i : Int) }) := by
  have hne := ne_nil_of_sorted_head hf
  obtain ⟨last, hl⟩ : ∃ last, (stable_sort g.m_stops).getLast? = some last :=
    ⟨_, List.getLast?_eq_getLast _ (stable_sort_ne_nil hne)⟩
  have hsorted := stable_sort_sorted g.m_stops
  have ha' : stopAt (stable_sort g.m_stops) (i : Int) = some a := by
    rw [stopAt_natCast]; exact ha
  have hb' : stopAt (stable_sort g.m_stops) ((i : Int) + 1) = some b := by
    have : ((i : Int) + 1) = ((i + 1 : Nat) : Int) := by omega
    rw [this, stopAt_natCast]; exact hb
  have hbl : b.stop ≤ last.stop := by
    have hlast : stopAt (stable_sort g.m_stops) (((stable_sort g.m_stops).length : Int) - 1)
        = some last := by
      rw [stopAt_last _ (stable_sort_ne_nil hne)]; exact hl
    have hbd := stopAt_bounds hb'
    exact stopAt_mono hsorted hb' hlast (by omega)
  have hnhigh : ¬ (v ≥ 1 ∨ v ≥ last.stop) := by
    push_neg; exact ⟨hv1, lt_of_lt_of_le hvb hbl⟩
  obtain ⟨j, c, d, -, -, -, hc, hd, hcv, hvd, hget⟩ :=
    getColor_interp g v first last hinv hcur hf hl hnlow hnhigh
  have hij : (i : Int) = j := bracket_unique hsorted ha' hb' hc hd hav hvb hcv hvd
  rw [← hij, ha'] at hc
  rw [← hij, hb'] at hd
  cases hc
  cases hd
  rw [hget, hij]

theorem mem_of_sorted_getElem? {l : List ColorStop} {i : Nat} {s : ColorStop}
    (h : (stable_sort l)[i]? = some s) : s ∈ l := by
  obtain ⟨hi, he⟩ := List.getElem?_eq_some.mp h
  have hm : s ∈ stable_sort l := by
    rw [← he]; exact List.getElem_mem _
  exact (List.Perm.mem_iff (stable_sort_perm l)).mp hm

/-- With strictly increasing sorted positions in [0,1], the colour at the point
`a.stop + t * (b.stop - a.stop)` between two adjacent sorted stops `a`, `b`. -/
theorem getColor_between_adjacent (g : State) (i : Nat) (a b : ColorStop)
    (hinv : g.m_stopsSorted = true → SortedStops g.m_stops)
    (hcur : 0 ≤ g.m_lastStop ∧ g.m_lastStop < (g.m_stops.length : Int) - 1)
    (hstrict : (stable_sort g.m_stops).Pairwise (fun x y => x.stop < y.stop))
    (hrange : ∀ s ∈ g.m_stops, 0 ≤ s.stop ∧ s.stop ≤ 1)
    (ha : (stable_sort g.m_stops)[i]? = some a)
    (hb : (stable_sort g.m_stops)[i + 1]? = some b) :
    ∀ (t v : ℚ) (c : RGBA), 0 ≤ t → t ≤ 1 → v = a.stop + t * (b.stop - a.stop) →
      c = ⟨a.red + t * (b.red - a.red), a.green + t * (b.green - a.green),
           a.blue + t * (b.blue - a.blue), a.alpha + t * (b.alpha - a.alpha)⟩ →
      ∃ g' : State, getColor g v = some (c, g') := by
  intro t v c ht0 ht1 hv hc
  obtain ⟨hia, hea⟩ := List.getElem?_eq_some.mp ha
  obtain ⟨hib, heb⟩ := List.getElem?_eq_some.mp hb
  have hab : a.stop < b.stop := by
    have := (List.pairwise_iff_getElem.mp hstrict) i (i + 1) hia hib (Nat.lt_succ_self i)
    rw [hea, heb] at this
    exact this
  have hne : g.m_stops ≠ [] := by
    intro h0
    rw [h0] at hia
    simp [stable_sort] at hia
  obtain ⟨first, last, hf, hl⟩ := sorted_head_last hne
  have hf0 : (stable_sort g.m_stops)[0]? = some first := by
    rw [← List.head?_eq_getElem?]; exact hf
  have hfa : first.stop ≤ a.stop := by
    rcases Nat.eq_zero_or_pos i with h0 | hpos
    · rw [h0, hf0] at ha
      cases ha
      exact le_refl _
    · obtain ⟨h0l, h0e⟩ := List.getElem?_eq_some.mp hf0
      have := (List.pairwise_iff_getElem.mp hstrict) 0 i h0l hia hpos
      rw [h0e, hea] at this
      exact le_of_lt this
  have hra := hrange a (mem_of_sorted_getElem? ha)
  have hrb := hrange b (mem_of_sorted_getElem? hb)
  have hrf := hrange first (mem_of_sorted_getElem? hf0)
  have hd : 0 < b.stop - a.stop := by linarith
  by_cases hteq : t = 1
  · have hvb : v = b.stop := by rw [hv, hteq]; ring
    have hcb : c = ⟨b.red, b.green, b.blue, b.alpha⟩ := by
      rw [hc, hteq]
      simp only [RGBA.mk.injEq]
      refine ⟨?_, ?_, ?_, ?_⟩ <;> ring
    have hnlow : ¬ (v ≤ 0 ∨ v ≤ first.stop) := by
      push_neg
      constructor <;> linarith
    rcases Nat.lt_or_ge (i + 2) (stable_sort g.m_stops).length with hlt | hge
    · have hcx : (stable_sort g.m_stops)[i + 1 + 1]? = some (stable_sort g.m_stops)[i + 2] :=
        List.getElem?_eq_getElem hlt
      have hbc : b.stop < ((stable_sort g.m_stops)[i + 2]).stop := by
        have := (List.pairwise_iff_getElem.mp hstrict) (i + 1) (i + 2) hib hlt
          (Nat.lt_succ_self _)
        rw [heb] at this
        exact this
      have hrc := hrange _ (mem_of_sorted_getElem? hcx)
      have hget := getColor_at_bracket g v first (i + 1) b _ hinv hcur hf hnlow
        (by linarith) hb hcx (by linarith) (by linarith)
      refine ⟨{ getColor.sortOnRead g with m_lastStop := ((i + 1 : Nat) : Int) }, ?_⟩
      rw [hget, hcb, hvb]
      simp
    · have hlast : last = b := by
        have h1 : (stable_sort g.m_stops).length - 1 = i + 1 := by omega
        rw [List.getLast?_eq_getElem?, h1, hb] at hl
        exact (Option.some.inj hl).symm
      have hget := getColor_high g v first last hinv hf hl hnlow
        (Or.inr (by rw [hlast, hvb]))
      refine ⟨getColor.sortOnRead g, ?_⟩
      rw [hget, hcb, hlast]
  · have htlt : t < 1 := lt_of_le_of_ne ht1 hteq
    have hav : a.stop ≤ v := by
      rw [hv]
      have := mul_nonneg ht0 (le_of_lt hd)
      linarith
    have hvb : v < b.stop := by
      rw [hv]
      have : t * (b.stop - a.stop) < 1 * (b.stop - a.stop) :=
        mul_lt_mul_of_pos_right htlt hd
      linarith
    by_cases hlow : v ≤ 0 ∨ v ≤ first.stop
    · have hva : v = a.stop := by
        rcases hlow with h | h <;> linarith
      have hfeq : first.stop = a.stop := by
        rcases hlow with h | h <;> linarith
      have ht : t = 0 := by
        have hz : t * (b.stop - a.stop) = 0 := by linarith
        rcases mul_eq_zero.mp hz with h | h
        · exact h
        · exact absurd h (ne_of_gt hd)
      have hi0 : i = 0 := by
        by_contra hi
        obtain ⟨h0l, h0e⟩ := List.getElem?_eq_some.mp hf0
        have := (List.pairwise_iff_getElem.mp hstrict) 0 i h0l hia (Nat.pos_of_ne_zero hi)
        rw [h0e, hea, hfeq] at this
        exact lt_irrefl _ this
      have hfa' : first = a := by
        rw [hi0, hf0] at ha
        exact Option.some.inj ha
      have hget := getColor_low g v first hinv hf hlow
      refine ⟨getColor.sortOnRead g, ?_⟩
      rw [hget, hc, ht, hfa']
      simp
    · have hget := getColor_at_bracket g v first i a b hinv hcur hf hlow
        (by linarith) ha hb hav hvb
      have hfrac : (v - a.stop) / (b.stop - a.stop) = t := by
        rw [hv]
        field_simp
      refine ⟨{ getColor.sortOnRead g with m_lastStop := (i : Int) }, ?_⟩
      rw [hget, hc, hfrac]
      simp only [Option.some.injEq, Prod.mk.injEq, RGBA.mk.injEq, and_true]
      refine ⟨?_, ?_, ?_, ?_⟩ <;> ring

/-! ## The state invariant -/

theorem findStop_frame {g g' : State} {v : ℚ} {i : Int}
    (h : findStop g v = some (i, g')) : g' = { g with m_lastStop := i } := by
  unfold findStop at h
  cases hc : stopAt g.m_stops g.m_lastStop with
  | none =>
    simp only [hc] at h
    cases h
  | some s =>
    simp only [hc] at h
    generalize (if v < s.stop then (1 : Int) else g.m_lastStop + 1) = i0 at h
    cases hl : findStop.loop g.m_stops v (g.m_stops.length : Int) i0 with
    | none =>
      simp only [hl] at h
      cases h
    | some k =>
      simp only [hl, Option.some.injEq, Prod.mk.injEq] at h
      rw [← h.2, h.1]

theorem getColor.sortOnRead_length (g : State) :
    (getColor.sortOnRead g).m_stops.length = g.m_stops.length := by
  unfold getColor.sortOnRead
  cases hflag : g.m_stopsSorted with
  | true => simp
  | false =>
    by_cases hl : g.m_stops.length = 0
    · simp [hl]
    · simp [hl, stable_sort_length]

theorem getColor_frame {g g' : State} {v : ℚ} {c : RGBA}
    (h : getColor g v = some (c, g')) :
    ∃ j : Int, g' = { g with m_lastStop := j } ∨
      g' = { getColor.sortOnRead g with m_lastStop := j } := by
  by_cases hne : g.m_stops = []
  · rw [getColor_nil g v hne] at h
    simp only [Option.some.injEq, Prod.mk.injEq] at h
    exact ⟨g.m_lastStop, Or.inl h.2.symm⟩
  · have hne1 : (getColor.sortOnRead g).m_stops ≠ [] := by
      intro h0
      have hlen := getColor.sortOnRead_length g
      rw [h0] at hlen
      exact hne (List.length_eq_zero.mp hlen.symm)
    rw [getColor_unfold g v _ _ (List.head?_eq_head hne1)
      (List.getLast?_eq_getLast _ hne1) hne] at h
    split at h
    · simp only [Option.some.injEq, Prod.mk.injEq] at h
      exact ⟨(getColor.sortOnRead g).m_lastStop, Or.inr h.2.symm⟩
    · split at h
      · simp only [Option.some.injEq, Prod.mk.injEq] at h
        exact ⟨(getColor.sortOnRead g).m_lastStop, Or.inr h.2.symm⟩
      · cases hfs : findStop (getColor.sortOnRead g) v with
        | none =>
          simp only [hfs] at h
          cases h
        | some r =>
          obtain ⟨stop, g2⟩ := r
          have hfr := findStop_frame hfs
          simp only [hfs] at h
          split at h
          · simp only [Option.some.injEq, Prod.mk.injEq] at h
            exact ⟨stop, Or.inr (h.2 ▸ hfr)⟩
          · cases h

theorem getColor.sortOnRead_eq_sortStopsIfNecessary (g : State) :
    getColor.sortOnRead g = sortStopsIfNecessary g := by
  unfold getColor.sortOnRead sortStopsIfNecessary
  cases hflag : g.m_stopsSorted with
  | true => simp
  | false =>
    by_cases hl : g.m_stops.length = 0
    · have hnil : g.m_stops = [] := List.length_eq_zero.mp hl
      simp [hnil]
    · simp [hl]

theorem getColor.sortOnRead_invariant (g : State) (h : stopsSortedInvariant g) :
    stopsSortedInvariant (getColor.sortOnRead g) := by
  rw [getColor.sortOnRead_eq g h]
  intro _
  exact stable_sort_sorted _

theorem two_le_length_of_not_clamped {l : List ColorStop} {first last : ColorStop} {v : ℚ}
    (hf : (stable_sort l).head? = some first) (hl : (stable_sort l).getLast? = some last)
    (hnlow : ¬ (v ≤ 0 ∨ v ≤ first.stop)) (hnhigh : ¬ (v ≥ 1 ∨ v ≥ last.stop)) :
    2 ≤ l.length := by
  have hne := ne_nil_of_sorted_head hf
  rcases Nat.lt_or_ge l.length 2 with hlt | hge
  · exfalso
    have hlen1 : (stable_sort l).length = 1 := by
      have hpos : 0 < l.length := List.length_pos.mpr hne
      rw [stable_sort_length]; omega
    obtain ⟨x, hx⟩ := List.length_eq_one.mp hlen1
    rw [hx] at hf hl
    simp at hf hl
    push_neg at hnlow hnhigh
    rw [← hf] at hnlow
    rw [← hl] at hnhigh
    exact absurd (lt_trans hnlow.2 hnhigh.2) (lt_irrefl _)
  · exact hge

/-- From a state that satisfies the invariant `getColor` returns, and the state
it leaves satisfies the invariant and holds the same stops up to sorting. -/
theorem getColor_step (g : State) (v : ℚ) (hinv : Invariant g) :
    ∃ (c : RGBA) (g' : State), getColor g v = some (c, g') ∧ Invariant g' ∧
      stable_sort g'.m_stops = stable_sort g.m_stops ∧
      g'.m_stops.length = g.m_stops.length := by
  obtain ⟨hsi, hc0, hc1⟩ := hinv
  by_cases hne : g.m_stops = []
  · exact ⟨_, _, getColor_nil g v hne, ⟨hsi, hc0, hc1⟩, rfl, rfl⟩
  · obtain ⟨first, last, hf, hl⟩ := sorted_head_last hne
    have hso := getColor.sortOnRead_eq g hsi
    have hss : stable_sort (stable_sort g.m_stops) = stable_sort g.m_stops :=
      stable_sort_eq_self (stable_sort_sorted _)
    have hgood : Invariant (getColor.sortOnRead g) ∧
        stable_sort (getColor.sortOnRead g).m_stops = stable_sort g.m_stops ∧
        (getColor.sortOnRead g).m_stops.length = g.m_stops.length := by
      refine ⟨⟨getColor.sortOnRead_invariant g hsi, ?_, ?_⟩, ?_,
        getColor.sortOnRead_length g⟩
      · rw [getColor.sortOnRead_lastStop]; exact hc0
      · rw [getColor.sortOnRead_lastStop, getColor.sortOnRead_length]; exact hc1
      · rw [hso]; exact hss
    by_cases hlow : v ≤ 0 ∨ v ≤ first.stop
    · exact ⟨_, _, getColor_low g v first hsi hf hlow, hgood⟩
    · by_cases hhigh : v ≥ 1 ∨ v ≥ last.stop
      · exact ⟨_, _, getColor_high g v first last hsi hf hl hlow hhigh, hgood⟩
      · have h2 := two_le_length_of_not_clamped hf hl hlow hhigh
        have hcur : 0 ≤ g.m_lastStop ∧ g.m_lastStop < (g.m_stops.length : Int) - 1 := by
          refine ⟨hc0, ?_⟩
          rcases hc1 with h | h
          · rw [h]; omega
          · exact h
        obtain ⟨j, a, b, -, hj0, hj1, -, -, -, -, hget⟩ :=
          getColor_interp g v first last hsi hcur hf hl hlow hhigh
        refine ⟨_, _, hget, ?_⟩
        rw [hso]
        refine ⟨⟨fun _ => stable_sort_sorted _, hj0, Or.inr ?_⟩, hss, stable_sort_length _⟩
        simp only [stable_sort_length]
        exact hj1

theorem adjustParametersForTiledDrawing_fst (isEmpty : FloatRect → Bool) (g : State)
    (size : IntSize) (srcRect : FloatRect) :
    (adjustParametersForTiledDrawing isEmpty g size srcRect).1 = g := by
  unfold adjustParametersForTiledDrawing
  split
  · rfl
  · split
    · rfl
    · split
      · rfl
      · split <;> rfl

theorem sortStopsIfNecessary_invariant (g : State) (h : Invariant g) :
    Invariant (sortStopsIfNecessary g) := by
  rw [← getColor.sortOnRead_eq_sortStopsIfNecessary]
  obtain ⟨hsi, hc0, hc1⟩ := h
  refine ⟨getColor.sortOnRead_invariant g hsi, ?_, ?_⟩
  · rw [getColor.sortOnRead_lastStop]; exact hc0
  · rw [getColor.sortOnRead_lastStop, getColor.sortOnRead_length]; exact hc1

theorem addColorStop_invariant (g : State) (stop : ColorStop) (h : Invariant g) :
    Invariant (addColorStop g stop) := by
  obtain ⟨-, hc0, hc1⟩ := h
  refine ⟨fun hflag => ?_, hc0, ?_⟩
  · simp [addColorStop, platformDestroy] at hflag
  · rcases hc1 with hz | hlt
    · exact Or.inl hz
    · refine Or.inr ?_
      show g.m_lastStop < ((g.m_stops ++ [stop]).length : Int) - 1
      rw [List.length_append, List.length_singleton]
      push_cast
      omega

/-- Every reachable state satisfies the invariant. -/
theorem Reachable.invariant {g : State} (h : Reachable g) : Invariant g := by
  induction h with
  | linear p0 p1 =>
    refine ⟨fun hflag => ?_, le_refl _, Or.inl rfl⟩
    simp [Gradient.linear, platformInit] at hflag
  | radial p0 r0 p1 r1 aspectRatio =>
    refine ⟨fun hflag => ?_, le_refl _, Or.inl rfl⟩
    simp [Gradient.radial, platformInit] at hflag
  | addColorStop stop _ ih => exact addColorStop_invariant _ stop ih
  | addColorStopColor getRGBA value color _ ih =>
    exact addColorStop_invariant _ _ ih
  | sortStopsIfNecessary _ ih => exact sortStopsIfNecessary_invariant _ ih
  | getColor value c _ _ _ hget ih =>
    obtain ⟨c', g'', hget', hinv', -, -⟩ := getColor_step _ value ih
    rw [hget] at hget'
    cases hget'
    exact hinv'
  | hasAlpha b _ _ ih => exact ih
  | setSpreadMethod spreadMethod _ ih => exact ih
  | setGradientSpaceTransform t _ ih => exact ih
  | adjustParametersForTiledDrawing isEmpty size srcRect _ ih =>
    rw [adjustParametersForTiledDrawing_fst]
    exact ih

/-- The loop of `findStop` leaves at the first index from `i` on, below
`numStops - 1`, whose stop lies above the value, or at `numStops - 1`. -/
theorem findStop.loop_first (s : List ColorStop) (v : ℚ) (n : Int) (hn : n = s.length) :
    ∀ (k : Nat) (i : Int), (n - 1 - i).toNat = k → 0 ≤ i → i ≤ n - 1 →
      ∃ j, findStop.loop s v n i = some j ∧ i ≤ j ∧ j ≤ n - 1 ∧
        (∀ m, i ≤ m → m < j → ∀ x, stopAt s m = some x → ¬ v < x.stop) ∧
        (j < n - 1 → ∀ b, stopAt s j = some b → v < b.stop) := by
  intro k
  induction k with
  | zero =>
    intro i hk h0 hle
    have hi : ¬ i < n - 1 := by omega
    refine ⟨i, ?_, le_refl _, hle, ?_, fun h => absurd h hi⟩
    · rw [findStop.loop, if_neg hi]
    · intro m hm1 hm2
      omega
  | succ k ih =>
    intro i hk h0 hle
    have hi : i < n - 1 := by omega
    obtain ⟨x, hx⟩ := stopAt_isSome (s := s) (i := i) h0 (by omega)
    rw [findStop.loop, if_pos hi, hx]
    by_cases hv : v < x.stop
    · refine ⟨i, by simp [hv], le_refl _, hle, ?_, ?_⟩
      · intro m hm1 hm2
        omega
      · intro _ b hb
        rw [hx] at hb
        cases hb
        exact hv
    · obtain ⟨j, hj, hij, hjn, hjp, hjq⟩ := ih (i + 1) (by omega) (by omega) (by omega)
      refine ⟨j, ?_, by omega, hjn, ?_, hjq⟩
      · simp only [hv, if_false]
        exact hj
      · intro m hm1 hm2 y hy
        rcases lt_or_eq_of_le hm1 with hlt | heq
        · exact hjp m (by omega) hm2 y hy
        · rw [← heq, hx] at hy
          cases hy
          exact hv

/-! ## Histories of insertions and queries -/

theorem stable_sort_append_congr {xs xs' : List ColorStop} (ys : List ColorStop)
    (h : stable_sort xs = stable_sort xs') :
    stable_sort (xs ++ ys) = stable_sort (xs' ++ ys) := by
  apply sorted_eq_of_filter_eq _ _ (stable_sort_sorted _) (stable_sort_sorted _)
  intro p
  have hx : xs.filter (fun s => decide (s.stop = p))
      = xs'.filter (fun s => decide (s.stop = p)) := by
    rw [← stable_sort_filter p xs, ← stable_sort_filter p xs', h]
  rw [stable_sort_filter, stable_sort_filter, List.filter_append, List.filter_append, hx]

theorem stable_sort_idem (l : List ColorStop) : stable_sort (stable_sort l) = stable_sort l :=
  stable_sort_eq_self (stable_sort_sorted l)

theorem foldl_addColorStop_stops (l : List ColorStop) :
    ∀ g : State, (l.foldl addColorStop g).m_stops = g.m_stops ++ l := by
  induction l with
  | nil => intro g; simp
  | cons x xs ih =>
    intro g
    rw [List.foldl_cons, ih]
    simp [addColorStop, platformDestroy]

theorem foldl_addColorStop_invariant (l : List ColorStop) :
    ∀ g : State, Invariant g → Invariant (l.foldl addColorStop g) := by
  induction l with
  | nil => intro g h; exact h
  | cons x xs ih =>
    intro g h
    rw [List.foldl_cons]
    exact ih _ (addColorStop_invariant g x h)

theorem sortStopsIfNecessary_sorted_stops (g : State) (h : stopsSortedInvariant g) :
    stable_sort (sortStopsIfNecessary g).m_stops = stable_sort g.m_stops := by
  rw [← getColor.sortOnRead_eq_sortStopsIfNecessary, getColor.sortOnRead_eq g h]
  exact stable_sort_idem _

/-- A history run from a state that satisfies the invariant ends, in a state
that satisfies it and whose sorted stops are the stable sort of the stops
before followed by the stops added. -/
theorem runOps_spec : ∀ (ops : List Op) (g : State) (base : List ColorStop),
    Invariant g → stable_sort g.m_stops = stable_sort base →
    ∃ g' : State, runOps g ops = some g' ∧ Invariant g' ∧
      stable_sort g'.m_stops = stable_sort (base ++ addedStops ops) := by
  intro ops
  induction ops with
  | nil =>
    intro g base hinv hs
    refine ⟨g, rfl, hinv, ?_⟩
    simp [addedStops, hs]
  | cons op ops ih =>
    intro g base hinv hs
    cases op with
    | add stop =>
      have h1 : stable_sort (addColorStop g stop).m_stops = stable_sort (base ++ [stop]) :=
        stable_sort_append_congr [stop] hs
      obtain ⟨g', hrun, hinv', hs'⟩ :=
        ih (addColorStop g stop) (base ++ [stop]) (addColorStop_invariant g stop hinv) h1
      refine ⟨g', ?_, hinv', ?_⟩
      · simp only [runOps, Op.run]
        exact hrun
      · rw [hs']
        simp [addedStops]
    | query value =>
      obtain ⟨c, g1, hget, hinv1, hs1, -⟩ := getColor_step g value hinv
      obtain ⟨g', hrun, hinv', hs'⟩ := ih g1 base hinv1 (hs1.trans hs)
      refine ⟨g', ?_, hinv', ?_⟩
      · simp only [runOps, Op.run, hget]
        exact hrun
      · rw [hs']
        simp [addedStops]
    | sort =>
      obtain ⟨g', hrun, hinv', hs'⟩ :=
        ih (sortStopsIfNecessary g) base (sortStopsIfNecessary_invariant g hinv)
          ((sortStopsIfNecessary_sorted_stops g hinv.1).trans hs)
      refine ⟨g', ?_, hinv', ?_⟩
      · simp only [runOps, Op.run]
        exact hrun
      · rw [hs']
        simp [addedStops]

theorem Invariant.cursor {g : State} (h : Invariant g) :
    2 ≤ g.m_stops.length →
      0 ≤ g.m_lastStop ∧ g.m_lastStop < (g.m_stops.length : Int) - 1 := by
  intro h2
  refine ⟨h.2.1, ?_⟩
  rcases h.2.2 with hz | hlt
  · rw [hz]; omega
  · exact hlt

/-! ## Alpha of the returned colour -/

theorem hasAlpha.loop_false {l : List ColorStop} (h : hasAlpha.loop l = false) :
    ∀ s ∈ l, 1 ≤ s.alpha := by
  induction l with
  | nil =>
    intro s hs
    cases hs
  | cons x xs ih =>
    unfold hasAlpha.loop at h
    by_cases hx : x.alpha < 1
    · simp [hx] at h
    · simp only [hx, if_false] at h
      intro s hs
      rcases List.mem_cons.mp hs with e | e
      · rw [e]; exact not_lt.mp hx
      · exact ih h s e

/-- The alpha `getColor` returns on a non-empty gradient is the alpha of a stop
or lies on the segment between the alphas of two stops. -/
theorem getColor_alpha_cases (g : State) (v : ℚ) (hinv : Invariant g)
    (hne : g.m_stops ≠ []) :
    ∃ (c : RGBA) (g' : State), getColor g v = some (c, g') ∧
      ((∃ s ∈ g.m_stops, c.a = s.alpha) ∨
        (∃ a ∈ g.m_stops, ∃ b ∈ g.m_stops, ∃ t : ℚ, 0 ≤ t ∧ t ≤ 1 ∧
          c.a = a.alpha + (b.alpha - a.alpha) * t)) := by
  obtain ⟨first, last, hf, hl⟩ := sorted_head_last hne
  have hfm : first ∈ g.m_stops := by
    have hf0 : (stable_sort g.m_stops)[0]? = some first := by
      rw [← List.head?_eq_getElem?]; exact hf
    exact mem_of_sorted_getElem? hf0
  have hlm : last ∈ g.m_stops := by
    rw [List.getLast?_eq_getElem?] at hl
    exact mem_of_sorted_getElem? hl
  by_cases hlow : v ≤ 0 ∨ v ≤ first.stop
  · exact ⟨_, _, getColor_low g v first hinv.1 hf hlow, Or.inl ⟨first, hfm, rfl⟩⟩
  · by_cases hhigh : v ≥ 1 ∨ v ≥ last.stop
    · exact ⟨_, _, getColor_high g v first last hinv.1 hf hl hlow hhigh,
        Or.inl ⟨last, hlm, rfl⟩⟩
    · have h2 := two_le_length_of_not_clamped hf hl hlow hhigh
      obtain ⟨j, a, b, -, hj0, -, ha, hb, hav, hvb, hget⟩ :=
        getColor_interp g v first last hinv.1 (hinv.cursor h2) hf hl hlow hhigh
      have ham : a ∈ g.m_stops := by
        rw [stopAt_of_nonneg _ hj0] at ha
        exact mem_of_sorted_getElem? ha
      have hbm : b ∈ g.m_stops := by
        rw [stopAt_of_nonneg _ (by omega)] at hb
        exact mem_of_sorted_getElem? hb
      obtain ⟨-, ht0, ht1⟩ := fraction_bounds hav hvb
      exact ⟨_, _, hget, Or.inr ⟨a, ham, b, hbm, _, ht0, le_of_lt ht1, rfl⟩⟩

/-! ## The claims -/

/-- C1, as amended: for a gradient with at least two stops and a valid cursor,
and a value with `0 < value < 1` strictly between the positions of the first
and the last sorted stop, there is exactly one index `i` whose stops bracket the
value, and `getColor` returns for each channel
`lastStop.channel + (nextStop.channel - lastStop.channel) * (value - lastStop.stop)
/ (nextStop.stop - lastStop.stop)` with `lastStop = sorted[i]` and
`nextStop = sorted[i + 1]`, leaving the stops sorted and the cursor at `i`. -/
theorem getColor_interpolates (g : State) (value : ℚ) (first last : ColorStop)
    (hinv : g.m_stopsSorted = true → SortedStops g.m_stops)
    (hlen : 2 ≤ g.m_stops.length)
    (hcur : 0 ≤ g.m_lastStop ∧ g.m_lastStop < (g.m_stops.length : Int) - 1)
    (hval : 0 < value ∧ value < 1)
    (hf : (stable_sort g.m_stops).head? = some first)
    (hl : (stable_sort g.m_stops).getLast? = some last)
    (hlo : first.stop < value) (hhi : value < last.stop) :
    ∃ (i : Nat) (lastStop nextStop : ColorStop),
      (stable_sort g.m_stops)[i]? = some lastStop ∧
      (stable_sort g.m_stops)[i + 1]? = some nextStop ∧
      lastStop.stop ≤ value ∧ value < nextStop.stop ∧
      (∀ (k : Nat) (c d : ColorStop), (stable_sort g.m_stops)[k]? = some c →
        (stable_sort g.m_stops)[k + 1]? = some d → c.stop ≤ value → value < d.stop → k = i) ∧
      getColor g value =
        some (⟨lastStop.red + (nextStop.red - lastStop.red) * (value - lastStop.stop)
                  / (nextStop.stop - lastStop.stop),
               lastStop.green + (nextStop.green - lastStop.green) * (value - lastStop.stop)
                  / (nextStop.stop - lastStop.stop),
               lastStop.blue + (nextStop.blue - lastStop.blue) * (value - lastStop.stop)
                  / (nextStop.stop - lastStop.stop),
               lastStop.alpha + (nextStop.alpha - lastStop.alpha) * (value - lastStop.stop)
                  / (nextStop.stop - lastStop.stop)⟩,
              { getColor.sortOnRead g with m_lastStop := (i : Int) }) := by
  have h2 := hlen
  have hnlow : ¬ (value ≤ 0 ∨ value ≤ first.stop) := by
    push_neg; exact ⟨hval.1, hlo⟩
  have hnhigh : ¬ (value ≥ 1 ∨ value ≥ last.stop) := by
    push_neg; exact ⟨hval.2, hhi⟩
  obtain ⟨j, a, b, -, hj0, -, ha, hb, hav, hvb, hget⟩ :=
    getColor_interp g value first last hinv hcur hf hl hnlow hnhigh
  have hjn : ((j.toNat : Nat) : Int) = j := Int.toNat_of_nonneg hj0
  have ha' : (stable_sort g.m_stops)[j.toNat]? = some a := by
    rw [← stopAt_of_nonneg _ hj0]; exact ha
  have hb' : (stable_sort g.m_stops)[j.toNat + 1]? = some b := by
    have h1 : (j + 1).toNat = j.toNat + 1 := by omega
    rw [← h1, ← stopAt_of_nonneg _ (by omega)]; exact hb
  refine ⟨j.toNat, a, b, ha', hb', hav, hvb, ?_, ?_⟩
  · intro k c d hc hd hcv hvd
    have hc' : stopAt (stable_sort g.m_stops) (k : Int) = some c := by
      rw [stopAt_natCast]; exact hc
    have hd' : stopAt (stable_sort g.m_stops) ((k : Int) + 1) = some d := by
      have : ((k : Int) + 1) = ((k + 1 : Nat) : Int) := by omega
      rw [this, stopAt_natCast]; exact hd
    have := bracket_unique (stable_sort_sorted g.m_stops) hc' hd' ha hb hcv hvd hav hvb
    omega
  · rw [hget, hjn]
    simp only [mul_div_assoc]

/-- C1, witness: the three-stop gradient queried at 1/4. -/
theorem getColor_interpolates_witness :
    ∃ (i : Nat) (lastStop nextStop : ColorStop),
      (stable_sort threeStopGradient.m_stops)[i]? = some lastStop ∧
      (stable_sort threeStopGradient.m_stops)[i + 1]? = some nextStop ∧
      lastStop.stop ≤ 1/4 ∧ (1/4 : ℚ) < nextStop.stop ∧
      (∀ (k : Nat) (c d : ColorStop), (stable_sort threeStopGradient.m_stops)[k]? = some c →
        (stable_sort threeStopGradient.m_stops)[k + 1]? = some d →
        c.stop ≤ 1/4 → (1/4 : ℚ) < d.stop → k = i) ∧
      getColor threeStopGradient (1/4) =
        some (⟨lastStop.red + (nextStop.red - lastStop.red) * (1/4 - lastStop.stop)
                  / (nextStop.stop - lastStop.stop),
               lastStop.green + (nextStop.green - lastStop.green) * (1/4 - lastStop.stop)
                  / (nextStop.stop - lastStop.stop),
               lastStop.blue + (nextStop.blue - lastStop.blue) * (1/4 - lastStop.stop)
                  / (nextStop.stop - lastStop.stop),
               lastStop.alpha + (nextStop.alpha - lastStop.alpha) * (1/4 - lastStop.stop)
                  / (nextStop.stop - lastStop.stop)⟩,
              { getColor.sortOnRead threeStopGradient with m_lastStop := (i : Int) }) :=
  getColor_interpolates threeStopGradient (1/4) ⟨0, 1, 0, 0, 1⟩ ⟨1, 0, 0, 1, 1⟩
    (by simp [threeStopGradient, addColorStop, platformDestroy])
    (by simp [threeStopGradient, addColorStop, platformDestroy, linear, platformInit])
    (by simp [threeStopGradient, addColorStop, platformDestroy, linear, platformInit])
    (by norm_num)
    (by norm_num [threeStopGradient, addColorStop, platformDestroy, linear, platformInit,
      stable_sort, stable_sort.insert, compareStops])
    (by norm_num [threeStopGradient, addColorStop, platformDestroy, linear, platformInit,
      stable_sort, stable_sort.insert, compareStops])
    (by norm_num) (by norm_num)

/-- C1, counterexample: with stops at -1 (all channels 0) and at 1/2 (all
channels 1) the value 0 lies in [0,1], strictly above the first position and
strictly below the last, and the cursor 0 is valid; `getColor 0` returns the
first stop's colour (0,0,0,0), whereas the interpolation formula gives 2/3. -/
theorem getColor_interpolates_counterexample :
    stable_sort belowZeroGradient.m_stops = [⟨-1, 0, 0, 0, 0⟩, ⟨1/2, 1, 1, 1, 1⟩] ∧
    belowZeroGradient.m_lastStop = 0 ∧
    (-1 : ℚ) < 0 ∧ (0 : ℚ) < 1/2 ∧
    (getColor belowZeroGradient 0).map Prod.fst = some ⟨0, 0, 0, 0⟩ ∧
    (0 : ℚ) + (1 - 0) * (0 - (-1)) / (1/2 - (-1)) = 2/3 ∧
    (getColor belowZeroGradient 0).map Prod.fst ≠ some ⟨2/3, 2/3, 2/3, 2/3⟩ := by
  have hget : (getColor belowZeroGradient 0).map Prod.fst = some ⟨0, 0, 0, 0⟩ := by
    norm_num [belowZeroGradient, addColorStop, platformDestroy, linear, platformInit,
      stable_sort, stable_sort.insert, compareStops, getColor, getColor.sortOnRead]
  refine ⟨?_, ?_, by norm_num, by norm_num, hget, by norm_num, ?_⟩
  · norm_num [belowZeroGradient, addColorStop, platformDestroy, linear, platformInit,
      stable_sort, stable_sort.insert, compareStops]
  · simp [belowZeroGradient, addColorStop, platformDestroy, linear, platformInit]
  · rw [hget]
    intro h
    have h2 := congrArg (fun o => o.map RGBA.r) h
    norm_num at h2

/-- C2: for a non-empty stop list and a value in [0,1], `getColor` returns the
first sorted stop's colour when `value <= 0` or `value <=` the first sorted
position, and otherwise the last sorted stop's colour when `value >= 1` or
`value >=` the last sorted position. -/
theorem getColor_clamps (g : State) (value : ℚ) (first last : ColorStop)
    (hinv : g.m_stopsSorted = true → SortedStops g.m_stops)
    (hne : g.m_stops ≠ [])
    (hval : 0 ≤ value ∧ value ≤ 1)
    (hf : (stable_sort g.m_stops).head? = some first)
    (hl : (stable_sort g.m_stops).getLast? = some last) :
    ((value ≤ 0 ∨ value ≤ first.stop) →
      getColor g value =
        some (⟨first.red, first.green, first.blue, first.alpha⟩, getColor.sortOnRead g)) ∧
    (¬ (value ≤ 0 ∨ value ≤ first.stop) → (value ≥ 1 ∨ value ≥ last.stop) →
      getColor g value =
        some (⟨last.red, last.green, last.blue, last.alpha⟩, getColor.sortOnRead g)) := by
  have _h1 := hne
  have _h2 := hval
  exact ⟨fun hlow => getColor_low g value first hinv hf hlow,
    fun hnlow hhigh => getColor_high g value first last hinv hf hl hnlow hhigh⟩

/-- C2, witness: the three-stop gradient queried at 0 and at 1. -/
theorem getColor_clamps_witness :
    getColor threeStopGradient 0 =
      some (⟨1, 0, 0, 1⟩, getColor.sortOnRead threeStopGradient) ∧
    getColor threeStopGradient 1 =
      some (⟨0, 0, 1, 1⟩, getColor.sortOnRead threeStopGradient) :=
  ⟨(getColor_clamps threeStopGradient 0 ⟨0, 1, 0, 0, 1⟩ ⟨1, 0, 0, 1, 1⟩
      (by simp [threeStopGradient, addColorStop, platformDestroy])
      (by simp [threeStopGradient, addColorStop, platformDestroy])
      (by norm_num)
      (by norm_num [threeStopGradient, addColorStop, platformDestroy, linear, platformInit,
        stable_sort, stable_sort.insert, compareStops])
      (by norm_num [threeStopGradient, addColorStop, platformDestroy, linear, platformInit,
        stable_sort, stable_sort.insert, compareStops])).1 (Or.inl (le_refl 0)),
   (getColor_clamps threeStopGradient 1 ⟨0, 1, 0, 0, 1⟩ ⟨1, 0, 0, 1, 1⟩
      (by simp [threeStopGradient, addColorStop, platformDestroy])
      (by simp [threeStopGradient, addColorStop, platformDestroy])
      (by norm_num)
      (by norm_num [threeStopGradient, addColorStop, platformDestroy, linear, platformInit,
        stable_sort, stable_sort.insert, compareStops])
      (by norm_num [threeStopGradient, addColorStop, platformDestroy, linear, platformInit,
        stable_sort, stable_sort.insert, compareStops])).2 (by norm_num) (Or.inl (le_refl 1))⟩

/-- C3, as amended: for a non-empty stop list `getColor 0` is the first sorted
stop's colour; `getColor 1` is the last sorted stop's colour when the first
sorted position is below 1, and the first sorted stop's colour when it is not. -/
theorem getColor_zero_one (g : State) (first last : ColorStop)
    (hinv : g.m_stopsSorted = true → SortedStops g.m_stops)
    (hf : (stable_sort g.m_stops).head? = some first)
    (hl : (stable_sort g.m_stops).getLast? = some last) :
    getColor g 0 =
      some (⟨first.red, first.green, first.blue, first.alpha⟩, getColor.sortOnRead g) ∧
    (first.stop < 1 →
      getColor g 1 =
        some (⟨last.red, last.green, last.blue, last.alpha⟩, getColor.sortOnRead g)) ∧
    (1 ≤ first.stop →
      getColor g 1 =
        some (⟨first.red, first.green, first.blue, first.alpha⟩, getColor.sortOnRead g)) := by
  refine ⟨getColor_low g 0 first hinv hf (Or.inl (le_refl 0)), ?_, ?_⟩
  · intro hlt
    refine getColor_high g 1 first last hinv hf hl ?_ (Or.inl (le_refl 1))
    push_neg
    exact ⟨by norm_num, hlt⟩
  · intro hge
    exact getColor_low g 1 first hinv hf (Or.inr hge)

/-- C3, witness: the gradient with stops at -1 and 1/2, whose first sorted
position is below 1. -/
theorem getColor_zero_one_witness :
    getColor belowZeroGradient 0 =
      some (⟨0, 0, 0, 0⟩, getColor.sortOnRead belowZeroGradient) ∧
    getColor belowZeroGradient 1 =
      some (⟨1, 1, 1, 1⟩, getColor.sortOnRead belowZeroGradient) :=
  have h := getColor_zero_one belowZeroGradient ⟨-1, 0, 0, 0, 0⟩ ⟨1/2, 1, 1, 1, 1⟩
    (by simp [belowZeroGradient, addColorStop, platformDestroy])
    (by norm_num [belowZeroGradient, addColorStop, platformDestroy, linear, platformInit,
      stable_sort, stable_sort.insert, compareStops])
    (by norm_num [belowZeroGradient, addColorStop, platformDestroy, linear, platformInit,
      stable_sort, stable_sort.insert, compareStops])
  ⟨h.1, h.2.1 (by norm_num)⟩

/-- C3, counterexample: with a red stop and then a blue stop, both at position
1, the last stop in sorted order is the blue one, and `getColor 1` returns red. -/
theorem getColor_zero_one_counterexample :
    (stable_sort allAtOneGradient.m_stops).getLast? = some ⟨1, 0, 0, 1, 1⟩ ∧
    (getColor allAtOneGradient 1).map Prod.fst = some ⟨1, 0, 0, 1⟩ ∧
    (getColor allAtOneGradient 1).map Prod.fst ≠ some ⟨0, 0, 1, 1⟩ := by
  have hget : (getColor allAtOneGradient 1).map Prod.fst = some ⟨1, 0, 0, 1⟩ := by
    norm_num [allAtOneGradient, addColorStop, platformDestroy, linear, platformInit,
      stable_sort, stable_sort.insert, compareStops, getColor, getColor.sortOnRead]
  refine ⟨?_, hget, ?_⟩
  · norm_num [allAtOneGradient, addColorStop, platformDestroy, linear, platformInit,
      stable_sort, stable_sort.insert, compareStops]
  · rw [hget]
    intro h
    have h2 := congrArg (fun o => o.map RGBA.r) h
    norm_num at h2

/-- C4, as amended: when the value is not caught by the low clamp (`0 < value`
and the first sorted position is below `value`) and `value < 1`, then for every
pair of adjacent sorted stops that bracket the value, each channel returned by
`getColor` lies between the two stops' channel values, inclusive. -/
theorem getColor_between_bracket (g : State) (value : ℚ) (first : ColorStop)
    (i : Nat) (a b : ColorStop)
    (hinv : g.m_stopsSorted = true → SortedStops g.m_stops)
    (hcur : 0 ≤ g.m_lastStop ∧ g.m_lastStop < (g.m_stops.length : Int) - 1)
    (hval : 0 < value ∧ value < 1)
    (hf : (stable_sort g.m_stops).head? = some first)
    (hlo : first.stop < value)
    (ha : (stable_sort g.m_stops)[i]? = some a)
    (hb : (stable_sort g.m_stops)[i + 1]? = some b)
    (hav : a.stop ≤ value) (hvb : value < b.stop) :
    ∃ (c : RGBA) (g' : State), getColor g value = some (c, g') ∧
      min a.red b.red ≤ c.r ∧ c.r ≤ max a.red b.red ∧
      min a.green b.green ≤ c.g ∧ c.g ≤ max a.green b.green ∧
      min a.blue b.blue ≤ c.b ∧ c.b ≤ max a.blue b.blue ∧
      min a.alpha b.alpha ≤ c.a ∧ c.a ≤ max a.alpha b.alpha := by
  have hne := ne_nil_of_sorted_head hf
  obtain ⟨last, hl⟩ : ∃ last, (stable_sort g.m_stops).getLast? = some last :=
    ⟨_, List.getLast?_eq_getLast _ (stable_sort_ne_nil hne)⟩
  have hsorted := stable_sort_sorted g.m_stops
  have ha' : stopAt (stable_sort g.m_stops) (i : Int) = some a := by
    rw [stopAt_natCast]; exact ha
  have hb' : stopAt (stable_sort g.m_stops) ((i : Int) + 1) = some b := by
    have : ((i : Int) + 1) = ((i + 1 : Nat) : Int) := by omega
    rw [this, stopAt_natCast]; exact hb
  have hbl : b.stop ≤ last.stop := by
    have hlast : stopAt (stable_sort g.m_stops) (((stable_sort g.m_stops).length : Int) - 1)
        = some last := by
      rw [stopAt_last _ (stable_sort_ne_nil hne)]; exact hl
    have hbd := stopAt_bounds hb'
    exact stopAt_mono hsorted hb' hlast (by omega)
  have hnlow : ¬ (value ≤ 0 ∨ value ≤ first.stop) := by
    push_neg; exact ⟨hval.1, hlo⟩
  have hnhigh : ¬ (value ≥ 1 ∨ value ≥ last.stop) := by
    push_neg; exact ⟨hval.2, lt_of_lt_of_le hvb hbl⟩
  obtain ⟨j, c, d, -, -, -, hc, hd, hcv, hvd, hget⟩ :=
    getColor_interp g value first last hinv hcur hf hl hnlow hnhigh
  have hij : (i : Int) = j := bracket_unique hsorted ha' hb' hc hd hav hvb hcv hvd
  rw [← hij, ha'] at hc
  rw [← hij, hb'] at hd
  cases hc
  cases hd
  obtain ⟨-, ht0, ht1⟩ := fraction_bounds hav hvb
  refine ⟨_, _, hget, ?_⟩
  exact ⟨(lerp_between a.red b.red _ ht0 (le_of_lt ht1)).1,
    (lerp_between a.red b.red _ ht0 (le_of_lt ht1)).2,
    (lerp_between a.green b.green _ ht0 (le_of_lt ht1)).1,
    (lerp_between a.green b.green _ ht0 (le_of_lt ht1)).2,
    (lerp_between a.blue b.blue _ ht0 (le_of_lt ht1)).1,
    (lerp_between a.blue b.blue _ ht0 (le_of_lt ht1)).2,
    (lerp_between a.alpha b.alpha _ ht0 (le_of_lt ht1)).1,
    (lerp_between a.alpha b.alpha _ ht0 (le_of_lt ht1)).2⟩

/-- C4, witness: the three-stop gradient queried at 3/4, between green at 1/2
and blue at 1. -/
theorem getColor_between_bracket_witness :
    ∃ (c : RGBA) (g' : State), getColor threeStopGradient (3/4) = some (c, g') ∧
      min (0 : ℚ) 0 ≤ c.r ∧ c.r ≤ max (0 : ℚ) 0 ∧
      min (1 : ℚ) 0 ≤ c.g ∧ c.g ≤ max (1 : ℚ) 0 ∧
      min (0 : ℚ) 1 ≤ c.b ∧ c.b ≤ max (0 : ℚ) 1 ∧
      min (1 : ℚ) 1 ≤ c.a ∧ c.a ≤ max (1 : ℚ) 1 :=
  getColor_between_bracket threeStopGradient (3/4) ⟨0, 1, 0, 0, 1⟩ 1
    ⟨1/2, 0, 1, 0, 1⟩ ⟨1, 0, 0, 1, 1⟩
    (by simp [threeStopGradient, addColorStop, platformDestroy])
    (by simp [threeStopGradient, addColorStop, platformDestroy, linear, platformInit])
    (by norm_num)
    (by norm_num [threeStopGradient, addColorStop, platformDestroy, linear, platformInit,
      stable_sort, stable_sort.insert, compareStops])
    (by norm_num)
    (by norm_num [threeStopGradient, addColorStop, platformDestroy, linear, platformInit,
      stable_sort, stable_sort.insert, compareStops])
    (by norm_num [threeStopGradient, addColorStop, platformDestroy, linear, platformInit,
      stable_sort, stable_sort.insert, compareStops])
    (by norm_num) (by norm_num)

/-- C4, counterexample: with red and green both at 1/2 and blue at 1, the value
1/2 is bracketed by the adjacent sorted stops green (index 1) and blue (index
2), whose red channels are both 0; `getColor (1/2)` returns red, whose red
channel is 1. -/
theorem getColor_between_bracket_counterexample :
    stable_sort coincidentGradient.m_stops
      = [⟨1/2, 1, 0, 0, 1⟩, ⟨1/2, 0, 1, 0, 1⟩, ⟨1, 0, 0, 1, 1⟩] ∧
    (1/2 : ℚ) ≤ 1/2 ∧ (1/2 : ℚ) < 1 ∧
    (getColor coincidentGradient (1/2)).map Prod.fst = some ⟨1, 0, 0, 1⟩ ∧
    ¬ ((1 : ℚ) ≤ max 0 0) := by
  refine ⟨?_, by norm_num, by norm_num, ?_, by norm_num⟩
  · norm_num [coincidentGradient, addColorStop, platformDestroy, linear, platformInit,
      stable_sort, stable_sort.insert, compareStops]
  · norm_num [coincidentGradient, addColorStop, platformDestroy, linear, platformInit,
      stable_sort, stable_sort.insert, compareStops, getColor, getColor.sortOnRead]

/-- C5: when `getColor` takes the interpolation branch (value in [0,1], caught by
neither clamp test), `findStop` returns an index `i` with
`sorted[i].stop <= value < sorted[i+1].stop`; the divisor is strictly positive,
the fraction lies in [0,1), and every returned channel is the convex
combination `(1 - t) * lastStop.channel + t * nextStop.channel`, which lies
between the two channel values. -/
theorem getColor_interpolation_branch (g : State) (value : ℚ) (first last : ColorStop)
    (hinv : g.m_stopsSorted = true → SortedStops g.m_stops)
    (hcur : 0 ≤ g.m_lastStop ∧ g.m_lastStop < (g.m_stops.length : Int) - 1)
    (hval : 0 ≤ value ∧ value ≤ 1)
    (hf : (stable_sort g.m_stops).head? = some first)
    (hl : (stable_sort g.m_stops).getLast? = some last)
    (hnlow : ¬ (value ≤ 0 ∨ value ≤ first.stop))
    (hnhigh : ¬ (value ≥ 1 ∨ value ≥ last.stop)) :
    ∃ (i : Int) (lastStop nextStop : ColorStop) (t : ℚ) (c : RGBA),
      findStop (getColor.sortOnRead g) value
        = some (i, { getColor.sortOnRead g with m_lastStop := i }) ∧
      stopAt (stable_sort g.m_stops) i = some lastStop ∧
      stopAt (stable_sort g.m_stops) (i + 1) = some nextStop ∧
      lastStop.stop ≤ value ∧ value < nextStop.stop ∧
      0 < nextStop.stop - lastStop.stop ∧
      t = (value - lastStop.stop) / (nextStop.stop - lastStop.stop) ∧
      0 ≤ t ∧ t < 1 ∧
      getColor g value = some (c, { getColor.sortOnRead g with m_lastStop := i }) ∧
      c.r = (1 - t) * lastStop.red + t * nextStop.red ∧
      c.g = (1 - t) * lastStop.green + t * nextStop.green ∧
      c.b = (1 - t) * lastStop.blue + t * nextStop.blue ∧
      c.a = (1 - t) * lastStop.alpha + t * nextStop.alpha ∧
      min lastStop.red nextStop.red ≤ c.r ∧ c.r ≤ max lastStop.red nextStop.red ∧
      min lastStop.green nextStop.green ≤ c.g ∧ c.g ≤ max lastStop.green nextStop.green ∧
      min lastStop.blue nextStop.blue ≤ c.b ∧ c.b ≤ max lastStop.blue nextStop.blue ∧
      min lastStop.alpha nextStop.alpha ≤ c.a ∧ c.a ≤ max lastStop.alpha nextStop.alpha := by
  have _h := hval
  obtain ⟨j, a, b, hfs, -, -, ha, hb, hav, hvb, hget⟩ :=
    getColor_interp g value first last hinv hcur hf hl hnlow hnhigh
  obtain ⟨hd, ht0, ht1⟩ := fraction_bounds hav hvb
  refine ⟨j, a, b, _, _, hfs, ha, hb, hav, hvb, hd, rfl, ht0, ht1, hget, ?_, ?_, ?_, ?_,
    (lerp_between a.red b.red _ ht0 (le_of_lt ht1)).1,
    (lerp_between a.red b.red _ ht0 (le_of_lt ht1)).2,
    (lerp_between a.green b.green _ ht0 (le_of_lt ht1)).1,
    (lerp_between a.green b.green _ ht0 (le_of_lt ht1)).2,
    (lerp_between a.blue b.blue _ ht0 (le_of_lt ht1)).1,
    (lerp_between a.blue b.blue _ ht0 (le_of_lt ht1)).2,
    (lerp_between a.alpha b.alpha _ ht0 (le_of_lt ht1)).1,
    (lerp_between a.alpha b.alpha _ ht0 (le_of_lt ht1)).2⟩ <;> ring

/-- C5, witness: the three-stop gradient queried at 1/4, between red at 0 and
green at 1/2. -/
theorem getColor_interpolation_branch_witness :
    ∃ (i : Int) (lastStop nextStop : ColorStop) (t : ℚ) (c : RGBA),
      findStop (getColor.sortOnRead threeStopGradient) (1/4 : ℚ)
        = some (i, { getColor.sortOnRead threeStopGradient with m_lastStop := i }) ∧
      stopAt (stable_sort threeStopGradient.m_stops) i = some lastStop ∧
      stopAt (stable_sort threeStopGradient.m_stops) (i + 1) = some nextStop ∧
      lastStop.stop ≤ (1/4 : ℚ) ∧ (1/4 : ℚ) < nextStop.stop ∧
      0 < nextStop.stop - lastStop.stop ∧
      t = ((1/4 : ℚ) - lastStop.stop) / (nextStop.stop - lastStop.stop) ∧
      0 ≤ t ∧ t < 1 ∧
      getColor threeStopGradient (1/4) = some (c, { getColor.sortOnRead threeStopGradient with m_lastStop := i }) ∧
      c.r = (1 - t) * lastStop.red + t * nextStop.red ∧
      c.g = (1 - t) * lastStop.green + t * nextStop.green ∧
      c.b = (1 - t) * lastStop.blue + t * nextStop.blue ∧
      c.a = (1 - t) * lastStop.alpha + t * nextStop.alpha ∧
      min lastStop.red nextStop.red ≤ c.r ∧ c.r ≤ max lastStop.red nextStop.red ∧
      min lastStop.green nextStop.green ≤ c.g ∧ c.g ≤ max lastStop.green nextStop.green ∧
      min lastStop.blue nextStop.blue ≤ c.b ∧ c.b ≤ max lastStop.blue nextStop.blue ∧
      min lastStop.alpha nextStop.alpha ≤ c.a ∧ c.a ≤ max lastStop.alpha nextStop.alpha :=
  getColor_interpolation_branch threeStopGradient (1/4) ⟨0, 1, 0, 0, 1⟩ ⟨1, 0, 0, 1, 1⟩
    (by simp [threeStopGradient, addColorStop, platformDestroy])
    (by simp [threeStopGradient, addColorStop, platformDestroy, linear, platformInit])
    (by norm_num)
    (by norm_num [threeStopGradient, addColorStop, platformDestroy, linear, platformInit,
      stable_sort, stable_sort.insert, compareStops])
    (by norm_num [threeStopGradient, addColorStop, platformDestroy, linear, platformInit,
      stable_sort, stable_sort.insert, compareStops])
    (by norm_num) (by norm_num)

/-- C6: the colour `getColor` returns does not depend on the calls before it.
For two states `g1`, `g2` of one gradient, which may differ in the cursor (any
valid value) and in whether the stops are already sorted (so their stable
sorts agree), a query with a value in [0,1] returns the same colour on both;
and in a run of queries on `g1` each result is the colour that query returns
alone on `g1` and alone on `g2`. -/
theorem getColor_call_order_independent (g1 g2 : State) (value : ℚ) (values : List ℚ)
    (hval : 0 ≤ value ∧ value ≤ 1)
    (hvals : ∀ v ∈ values, 0 ≤ v ∧ v ≤ 1)
    (hinv1 : g1.m_stopsSorted = true → SortedStops g1.m_stops)
    (hinv2 : g2.m_stopsSorted = true → SortedStops g2.m_stops)
    (hcur1 : 2 ≤ g1.m_stops.length →
      0 ≤ g1.m_lastStop ∧ g1.m_lastStop < (g1.m_stops.length : Int) - 1)
    (hcur2 : 2 ≤ g2.m_stops.length →
      0 ≤ g2.m_lastStop ∧ g2.m_lastStop < (g2.m_stops.length : Int) - 1)
    (hstops : stable_sort g1.m_stops = stable_sort g2.m_stops) :
    (∃ (c : RGBA) (s1 s2 : State),
      getColor g1 value = some (c, s1) ∧ getColor g2 value = some (c, s2)) ∧
    (∃ (cs : List RGBA) (g' : State), getColorSeq g1 values = some (cs, g') ∧
      List.Forall₂ (fun v c => ∃ s, getColor g1 v = some (c, s)) values cs ∧
      List.Forall₂ (fun v c => ∃ s, getColor g2 v = some (c, s)) values cs) := by
  have _h1 := hval
  have _h2 := hvals
  refine ⟨getColor_colour_eq g1 g2 value hinv1 hinv2 hcur1 hcur2 hstops, ?_⟩
  obtain ⟨cs, g', hseq, hall⟩ := getColorSeq_spec g1 hinv1 hcur1 values g1 hinv1 hcur1 rfl
  obtain ⟨cs2, g2', hseq2, hall2⟩ :=
    getColorSeq_spec g2 hinv2 hcur2 values g1 hinv1 hcur1 hstops
  rw [hseq] at hseq2
  cases hseq2
  exact ⟨cs, g', hseq, hall, hall2⟩

/-- C6, witness: the three-stop gradient as built (unsorted, cursor 0) and
after a query (sorted, cursor 1), queried at 1/4 and with the run 3/4, 1/4, 1/2. -/
theorem getColor_call_order_independent_witness :
    (∃ (c : RGBA) (s1 s2 : State),
      getColor threeStopGradient (1/4) = some (c, s1) ∧
      getColor threeStopGradientQueried (1/4) = some (c, s2)) ∧
    (∃ (cs : List RGBA) (g' : State),
      getColorSeq threeStopGradient [3/4, 1/4, 1/2] = some (cs, g') ∧
      List.Forall₂ (fun v c => ∃ s, getColor threeStopGradient v = some (c, s))
        [3/4, 1/4, 1/2] cs ∧
      List.Forall₂ (fun v c => ∃ s, getColor threeStopGradientQueried v = some (c, s))
        [3/4, 1/4, 1/2] cs) :=
  getColor_call_order_independent threeStopGradient threeStopGradientQueried (1/4)
    [3/4, 1/4, 1/2]
    (by norm_num)
    (by
      intro v hv
      simp only [List.mem_cons, List.mem_singleton, List.not_mem_nil, or_false] at hv
      rcases hv with h | h | h <;> rw [h] <;> norm_num)
    (by simp [threeStopGradient, addColorStop, platformDestroy])
    (by
      intro _
      norm_num [threeStopGradientQueried, getColor.sortOnRead, threeStopGradient, addColorStop,
        platformDestroy, linear, platformInit, stable_sort, stable_sort.insert, compareStops,
        SortedStops])
    (by simp [threeStopGradient, addColorStop, platformDestroy, linear, platformInit])
    (by
      norm_num [threeStopGradientQueried, getColor.sortOnRead, threeStopGradient, addColorStop,
        platformDestroy, linear, platformInit, stable_sort, stable_sort.insert, compareStops])
    (by
      norm_num [threeStopGradientQueried, getColor.sortOnRead, threeStopGradient, addColorStop,
        platformDestroy, linear, platformInit, stable_sort, stable_sort.insert, compareStops])

/-- C7: when `m_stopsSorted` is false, `sortStopsIfNecessary` replaces the stops
by a permutation of them that is non-decreasing by position and keeps, for
every position, the stops at that position in their order before the call,
sets `m_stopsSorted` and changes nothing else; when the flag is already true
the state is unchanged. The sort-on-read block of `getColor` is the same state
change, and a `getColor` call on a non-empty unsorted gradient leaves exactly
these stops and the flag set. -/
theorem sortStopsIfNecessary_spec (g : State) :
    (g.m_stopsSorted = false →
      (sortStopsIfNecessary g).m_stops.Perm g.m_stops ∧
      SortedStops (sortStopsIfNecessary g).m_stops ∧
      (∀ p : ℚ, (sortStopsIfNecessary g).m_stops.filter (fun s => decide (s.stop = p))
        = g.m_stops.filter (fun s => decide (s.stop = p))) ∧
      (sortStopsIfNecessary g).m_stopsSorted = true ∧
      sortStopsIfNecessary g
        = { g with m_stops := (sortStopsIfNecessary g).m_stops, m_stopsSorted := true } ∧
      (g.m_stops ≠ [] →
        (2 ≤ g.m_stops.length →
          0 ≤ g.m_lastStop ∧ g.m_lastStop < (g.m_stops.length : Int) - 1) →
        ∀ value : ℚ, ∃ (c : RGBA) (g' : State), getColor g value = some (c, g') ∧
          g'.m_stops = (sortStopsIfNecessary g).m_stops ∧ g'.m_stopsSorted = true)) ∧
    (g.m_stopsSorted = true → sortStopsIfNecessary g = g) ∧
    getColor.sortOnRead g = sortStopsIfNecessary g := by
  have hst : g.m_stopsSorted = false → (sortStopsIfNecessary g).m_stops = stable_sort g.m_stops := by
    intro hflag
    unfold sortStopsIfNecessary
    by_cases hl : g.m_stops.length = 0
    · have hnil : g.m_stops = [] := List.length_eq_zero.mp hl
      simp [hflag, hnil, stable_sort]
    · simp [hflag, hl]
  refine ⟨?_, ?_, ?_⟩
  · intro hflag
    have h := hst hflag
    refine ⟨?_, ?_, ?_, ?_, ?_, ?_⟩
    · rw [h]; exact stable_sort_perm _
    · rw [h]; exact stable_sort_sorted _
    · intro p; rw [h]; exact stable_sort_filter p _
    · unfold sortStopsIfNecessary
      by_cases hl : g.m_stops.length = 0 <;> simp [hflag, hl]
    · unfold sortStopsIfNecessary
      by_cases hl : g.m_stops.length = 0 <;> simp [hflag, hl]
    · intro hne hcur value
      have hinv : g.m_stopsSorted = true → SortedStops g.m_stops := by
        intro ht; rw [hflag] at ht; cases ht
      obtain ⟨c, g', hget, -, -, -, hres⟩ := getColor_result g value hinv hcur
      refine ⟨c, g', hget, ?_, (hres hne).2⟩
      rw [h]; exact (hres hne).1
  · intro hflag
    unfold sortStopsIfNecessary
    simp [hflag]
  · unfold getColor.sortOnRead sortStopsIfNecessary
    cases hflag : g.m_stopsSorted with
    | true => simp
    | false =>
      by_cases hl : g.m_stops.length = 0
      · have hnil : g.m_stops = [] := List.length_eq_zero.mp hl
        simp [hnil]
      · simp [hl]

/-- C7, witness: the gradient with red and green both at 1/2 and blue at 1, in
a state where blue was added first, is unsorted; the sort puts the two stops at
1/2 first, red before green as they were added. -/
theorem sortStopsIfNecessary_spec_witness :
    (sortStopsIfNecessary
        (addColorStop (addColorStop (addColorStop (linear ⟨0, 0⟩ ⟨1, 0⟩)
          ⟨1, 0, 0, 1, 1⟩) ⟨1/2, 1, 0, 0, 1⟩) ⟨1/2, 0, 1, 0, 1⟩)).m_stopsSorted = true ∧
    SortedStops (sortStopsIfNecessary
        (addColorStop (addColorStop (addColorStop (linear ⟨0, 0⟩ ⟨1, 0⟩)
          ⟨1, 0, 0, 1, 1⟩) ⟨1/2, 1, 0, 0, 1⟩) ⟨1/2, 0, 1, 0, 1⟩)).m_stops :=
  have h := (sortStopsIfNecessary_spec
    (addColorStop (addColorStop (addColorStop (linear ⟨0, 0⟩ ⟨1, 0⟩)
      ⟨1, 0, 0, 1, 1⟩) ⟨1/2, 1, 0, 0, 1⟩) ⟨1/2, 0, 1, 0, 1⟩)).1
    (by simp [addColorStop, platformDestroy])
  ⟨h.2.2.2.1, h.2.1⟩

/-- C8: `hasAlpha` returns true exactly when some stop has alpha below 1, for
every stop list; so for stops with alpha in [0,1] it returns false exactly when
every stop has alpha 1. -/
theorem hasAlpha_iff (g : State) :
    (hasAlpha g = true ↔ ∃ s ∈ g.m_stops, s.alpha < 1) ∧
    ((∀ s ∈ g.m_stops, 0 ≤ s.alpha ∧ s.alpha ≤ 1) →
      (hasAlpha g = false ↔ ∀ s ∈ g.m_stops, s.alpha = 1)) := by
  have hloop : ∀ l : List ColorStop, hasAlpha.loop l = true ↔ ∃ s ∈ l, s.alpha < 1 := by
    intro l
    induction l with
    | nil => simp [hasAlpha.loop]
    | cons x xs ih =>
      unfold hasAlpha.loop
      by_cases hx : x.alpha < 1
      · simp [hx]
      · simp [hx, ih]
  refine ⟨hloop g.m_stops, ?_⟩
  intro hrange
  have hfalse : hasAlpha g = false ↔ ¬ ∃ s ∈ g.m_stops, s.alpha < 1 := by
    rw [← hloop g.m_stops]
    unfold hasAlpha
    simp
  rw [hfalse]
  constructor
  · intro h s hs
    have h1 : ¬ s.alpha < 1 := fun hlt => h ⟨s, hs, hlt⟩
    exact le_antisymm (hrange s hs).2 (not_lt.mp h1)
  · rintro h ⟨s, hs, hlt⟩
    rw [h s hs] at hlt
    exact lt_irrefl _ hlt

/-- C8, witness: the three-stop gradient, all of whose stops have alpha 1. -/
theorem hasAlpha_iff_witness :
    hasAlpha threeStopGradient = false ↔ ∀ s ∈ threeStopGradient.m_stops, s.alpha = 1 :=
  (hasAlpha_iff threeStopGradient).2 (by
    intro s hs
    simp only [threeStopGradient, addColorStop, platformDestroy, linear, platformInit,
      List.nil_append, List.cons_append, List.mem_cons, List.mem_singleton,
      List.not_mem_nil, or_false] at hs
    rcases hs with h | h | h <;> rw [h] <;> norm_num)

/-- C9: `addColorStop` with a stop of any position returns the state whose
stops are the old stops followed by the new stop, with `m_stopsSorted` false and
the platform handle null; the geometry, the spread method, the transform and
the cursor are unchanged. -/
theorem addColorStop_spec (g : State) (stop : ColorStop) :
    (addColorStop g stop).m_stops = g.m_stops ++ [stop] ∧
    (addColorStop g stop).m_stopsSorted = false ∧
    (addColorStop g stop).m_gradient = none ∧
    (addColorStop g stop).m_radial = g.m_radial ∧
    (addColorStop g stop).m_p0 = g.m_p0 ∧
    (addColorStop g stop).m_p1 = g.m_p1 ∧
    (addColorStop g stop).m_r0 = g.m_r0 ∧
    (addColorStop g stop).m_r1 = g.m_r1 ∧
    (addColorStop g stop).m_aspectRatio = g.m_aspectRatio ∧
    (addColorStop g stop).m_spreadMethod = g.m_spreadMethod ∧
    (addColorStop g stop).m_gradientSpaceTransformation = g.m_gradientSpaceTransformation ∧
    (addColorStop g stop).m_lastStop = g.m_lastStop :=
  ⟨rfl, rfl, rfl, rfl, rfl, rfl, rfl, rfl, rfl, rfl, rfl, rfl⟩

/-- C10: `adjustParametersForTiledDrawing` never changes the gradient; it leaves
`size` and `srcRect` unchanged for a radial gradient or an empty `srcRect`;
otherwise with `p0.x == p1.x` it sets both widths to 1 and `srcRect.x` to 0 and
keeps the heights and `srcRect.y`; otherwise with `p0.y != p1.y` it changes
nothing; otherwise it sets both heights to 1 and `srcRect.y` to 0 and keeps the
widths and `srcRect.x`. -/
theorem adjustParametersForTiledDrawing_spec (isEmpty : FloatRect → Bool) (g : State)
    (size : IntSize) (srcRect : FloatRect) :
    (adjustParametersForTiledDrawing isEmpty g size srcRect).1 = g ∧
    ((g.m_radial = true ∨ isEmpty srcRect = true) →
      (adjustParametersForTiledDrawing isEmpty g size srcRect).2 = (size, srcRect)) ∧
    (g.m_radial = false → isEmpty srcRect = false → g.m_p0.x = g.m_p1.x →
      (adjustParametersForTiledDrawing isEmpty g size srcRect).2
        = (⟨1, size.height⟩, ⟨0, srcRect.y, 1, srcRect.height⟩)) ∧
    (g.m_radial = false → isEmpty srcRect = false → g.m_p0.x ≠ g.m_p1.x →
      g.m_p0.y ≠ g.m_p1.y →
      (adjustParametersForTiledDrawing isEmpty g size srcRect).2 = (size, srcRect)) ∧
    (g.m_radial = false → isEmpty srcRect = false → g.m_p0.x ≠ g.m_p1.x →
      g.m_p0.y = g.m_p1.y →
      (adjustParametersForTiledDrawing isEmpty g size srcRect).2
        = (⟨size.width, 1⟩, ⟨srcRect.x, 0, srcRect.width, 1⟩)) := by
  refine ⟨?_, ?_, ?_, ?_, ?_⟩
  · unfold adjustParametersForTiledDrawing
    split
    · rfl
    · split
      · rfl
      · split
        · rfl
        · split <;> rfl
  · rintro (h | h)
    · simp [adjustParametersForTiledDrawing, h]
    · unfold adjustParametersForTiledDrawing
      split
      · rfl
      · simp [h]
  · intro h1 h2 h3
    simp [adjustParametersForTiledDrawing, h1, h2, h3]
  · intro h1 h2 h3 h4
    simp [adjustParametersForTiledDrawing, h1, h2, h3, h4]
  · intro h1 h2 h3 h4
    simp [adjustParametersForTiledDrawing, h1, h2, h3, h4]

/-- C10, witness: a vertical linear gradient (`p0.x = p1.x = 3`) with a source
rectangle of width 10: both widths become 1 and the rectangle's x becomes 0. -/
theorem adjustParametersForTiledDrawing_spec_witness :
    (adjustParametersForTiledDrawing (fun r => decide (r.width ≤ 0 ∨ r.height ≤ 0))
        (linear ⟨3, 0⟩ ⟨3, 7⟩) ⟨10, 20⟩ ⟨5, 6, 10, 20⟩).2
      = (⟨1, 20⟩, ⟨0, 6, 1, 20⟩) :=
  (adjustParametersForTiledDrawing_spec (fun r => decide (r.width ≤ 0 ∨ r.height ≤ 0))
    (linear ⟨3, 0⟩ ⟨3, 7⟩) ⟨10, 20⟩ ⟨5, 6, 10, 20⟩).2.2.1
    (by simp [linear, platformInit]) (by norm_num) (by simp [linear, platformInit])

/-- C11: `equalGradient` on two stop sequences returns true exactly when they
have the same length and, at every index, the two stops have equal position,
red, green, blue and alpha; in every other case it returns false. -/
theorem equalGradient_iff (a b : List ColorStop) :
    (equalGradient a b = some true ↔
      (a.length = b.length ∧
        ∀ (i : Nat) (x y : ColorStop), a[i]? = some x → b[i]? = some y →
          x.stop = y.stop ∧ x.red = y.red ∧ x.green = y.green ∧ x.blue = y.blue ∧
            x.alpha = y.alpha)) ∧
    (equalGradient a b = some false ↔
      ¬ (a.length = b.length ∧
        ∀ (i : Nat) (x y : ColorStop), a[i]? = some x → b[i]? = some y →
          x.stop = y.stop ∧ x.red = y.red ∧ x.green = y.green ∧ x.blue = y.blue ∧
            x.alpha = y.alpha)) := by
  have htrue : equalGradient a b = some true ↔
      (a.length = b.length ∧
        ∀ (i : Nat) (x y : ColorStop), a[i]? = some x → b[i]? = some y →
          x.stop = y.stop ∧ x.red = y.red ∧ x.green = y.green ∧ x.blue = y.blue ∧
            x.alpha = y.alpha) := by
    unfold equalGradient
    by_cases hlen : a.length = b.length
    · rw [if_neg (not_not.mpr hlen), (equalGradient.loop_correct a b hlen _ 0 rfl).2]
      constructor
      · intro h
        refine ⟨hlen, ?_⟩
        intro i x y hx hy
        have hi : i < a.length := (List.getElem?_eq_some.mp hx).1
        have heq := h i (Nat.zero_le i) hi
        rw [hx, hy] at heq
        exact (ColorStop.eq_iff x y).mp (Option.some.inj heq)
      · intro h k _ hk
        have hkb : k < b.length := by omega
        have hx : a[k]? = some a[k] := List.getElem?_eq_getElem hk
        have hy : b[k]? = some b[k] := List.getElem?_eq_getElem hkb
        rw [hx, hy, (ColorStop.eq_iff _ _).mpr (h.2 k _ _ hx hy)]
    · rw [if_pos hlen]
      constructor
      · intro h
        cases h
      · intro h
        exact absurd h.1 hlen
  have hsome : ∃ r, equalGradient a b = some r := by
    unfold equalGradient
    by_cases hlen : a.length = b.length
    · rw [if_neg (not_not.mpr hlen)]
      exact (equalGradient.loop_correct a b hlen _ 0 rfl).1
    · rw [if_pos hlen]
      exact ⟨false, rfl⟩
  refine ⟨htrue, ?_⟩
  rw [← htrue]
  obtain ⟨r, hr⟩ := hsome
  rw [hr]
  cases r <;> simp

/-- C12: `equalGradient` on two gradient pointers returns true when both are
null, false when exactly one is null, and true when both are non-null,
whatever the two gradients are: it is true exactly when the two null tests
agree. -/
theorem equalGradientPtr_iff (a b : Option State) :
    (equalGradientPtr a b = true ↔ a.isNone = b.isNone) ∧
    equalGradientPtr none none = true ∧
    (∀ y : State, equalGradientPtr none (some y) = false) ∧
    (∀ x : State, equalGradientPtr (some x) none = false) ∧
    (∀ x y : State, equalGradientPtr (some x) (some y) = true) := by
  refine ⟨?_, rfl, fun _ => rfl, fun _ => rfl, fun _ _ => rfl⟩
  cases a <;> cases b <;> simp [equalGradientPtr]

/-- C13: for a gradient with no stops `getColor` returns (0,0,0,0) for every
value and returns the state as it was: stops, `m_stopsSorted` and cursor are
unchanged. -/
theorem getColor_empty (g : State) (value : ℚ) (h : g.m_stops = []) :
    ∃ g' : State, getColor g value = some (⟨0, 0, 0, 0⟩, g') ∧ g' = g ∧
      g'.m_stops = g.m_stops ∧ g'.m_stopsSorted = g.m_stopsSorted ∧
      g'.m_lastStop = g.m_lastStop :=
  ⟨g, getColor_nil g value h, rfl, rfl, rfl, rfl⟩

/-- C13, witness: a linear gradient as constructed, queried at 7/10. -/
theorem getColor_empty_witness :
    ∃ g' : State, getColor (linear ⟨0, 0⟩ ⟨1, 0⟩) (7/10) = some (⟨0, 0, 0, 0⟩, g') ∧
      g' = linear ⟨0, 0⟩ ⟨1, 0⟩ ∧
      g'.m_stops = (linear ⟨0, 0⟩ ⟨1, 0⟩).m_stops ∧
      g'.m_stopsSorted = (linear ⟨0, 0⟩ ⟨1, 0⟩).m_stopsSorted ∧
      g'.m_lastStop = (linear ⟨0, 0⟩ ⟨1, 0⟩).m_lastStop :=
  getColor_empty (linear ⟨0, 0⟩ ⟨1, 0⟩) (7/10) (by simp [linear, platformInit])

/-- C14: for a gradient with exactly one stop, at any position, `getColor x`
returns that stop's colour for every `x` in [0,1]; one of the two clamp tests
succeeds, so the call to `findStop` is not reached: the result is the same
whatever function stands at the call site, and the cursor is unchanged. -/
theorem getColor_single_stop (g : State) (s : ColorStop) (x : ℚ)
    (h : g.m_stops = [s]) (hx : 0 ≤ x ∧ x ≤ 1) :
    getColor g x = some (⟨s.red, s.green, s.blue, s.alpha⟩, getColor.sortOnRead g) ∧
    ((x ≤ 0 ∨ x ≤ s.stop) ∨ (x ≥ 1 ∨ x ≥ s.stop)) ∧
    (∀ finder : State → ℚ → Option (Int × State),
      getColor.withFinder finder g x
        = some (⟨s.red, s.green, s.blue, s.alpha⟩, getColor.sortOnRead g)) ∧
    (getColor.sortOnRead g).m_stops = [s] ∧
    (getColor.sortOnRead g).m_lastStop = g.m_lastStop := by
  have _h := hx
  have hs := getColor.sortOnRead_single g s h
  have hall : ∀ finder : State → ℚ → Option (Int × State),
      getColor.withFinder finder g x
        = some (⟨s.red, s.green, s.blue, s.alpha⟩, getColor.sortOnRead g) := by
    intro finder
    unfold getColor.withFinder
    simp only [h, hs, List.isEmpty_cons, Bool.false_eq_true, if_false, List.length_singleton,
      List.getElem?_cons_zero, List.head?_cons, List.getLast?_singleton, Nat.sub_self]
    by_cases hlow : x ≤ 0 ∨ x ≤ s.stop
    · simp only [hlow, if_true]
    · have hhigh : x ≥ 1 ∨ x ≥ s.stop := by
        push_neg at hlow
        exact Or.inr (le_of_lt hlow.2)
      simp only [hlow, hhigh, if_true, if_false]
  refine ⟨?_, ?_, hall, hs, getColor.sortOnRead_lastStop g⟩
  · rw [getColor_eq_withFinder]
    exact hall findStop
  · rcases le_total x s.stop with hle | hge
    · exact Or.inl (Or.inr hle)
    · exact Or.inr (Or.inr hge)

/-- C14, witness: the gradient with one stop at 3/10, queried at 4/5. -/
theorem getColor_single_stop_witness :
    getColor singleStopGradient (4/5)
      = some (⟨1/5, 2/5, 3/5, 1/2⟩, getColor.sortOnRead singleStopGradient) :=
  (getColor_single_stop singleStopGradient ⟨3/10, 1/5, 2/5, 3/5, 1/2⟩ (4/5)
    (by simp [singleStopGradient, addColorStop, platformDestroy, linear, platformInit])
    (by norm_num)).1

/-- C15: when the sorted positions are strictly increasing and lie in [0,1],
then for adjacent sorted stops `a`, `b` and every `t` in [0,1],
`getColor (a.stop + t * (b.stop - a.stop))` is channel-wise
`a.channel + t * (b.channel - a.channel)`, in whatever order the stops were
added; in particular `getColor` at a stop's position is that stop's colour and
at the midpoint of two adjacent positions it is the midpoint of their colours. -/
theorem getColor_piecewise_linear (g : State) (i : Nat) (a b : ColorStop) (t : ℚ)
    (hinv : g.m_stopsSorted = true → SortedStops g.m_stops)
    (hcur : 0 ≤ g.m_lastStop ∧ g.m_lastStop < (g.m_stops.length : Int) - 1)
    (hstrict : (stable_sort g.m_stops).Pairwise (fun x y => x.stop < y.stop))
    (hrange : ∀ s ∈ g.m_stops, 0 ≤ s.stop ∧ s.stop ≤ 1)
    (ha : (stable_sort g.m_stops)[i]? = some a)
    (hb : (stable_sort g.m_stops)[i + 1]? = some b)
    (ht : 0 ≤ t ∧ t ≤ 1) :
    (∃ g' : State, getColor g (a.stop + t * (b.stop - a.stop)) =
      some (⟨a.red + t * (b.red - a.red), a.green + t * (b.green - a.green),
             a.blue + t * (b.blue - a.blue), a.alpha + t * (b.alpha - a.alpha)⟩, g')) ∧
    (∃ g' : State, getColor g a.stop = some (⟨a.red, a.green, a.blue, a.alpha⟩, g')) ∧
    (∃ g' : State, getColor g b.stop = some (⟨b.red, b.green, b.blue, b.alpha⟩, g')) ∧
    (∃ g' : State, getColor g ((a.stop + b.stop) / 2) =
      some (⟨(a.red + b.red) / 2, (a.green + b.green) / 2,
             (a.blue + b.blue) / 2, (a.alpha + b.alpha) / 2⟩, g')) := by
  have key := getColor_between_adjacent g i a b hinv hcur hstrict hrange ha hb
  refine ⟨key t _ _ ht.1 ht.2 rfl rfl, ?_, ?_, ?_⟩
  · refine key 0 _ _ (le_refl 0) (by norm_num) (by ring) ?_
    simp only [RGBA.mk.injEq]
    refine ⟨?_, ?_, ?_, ?_⟩ <;> ring
  · refine key 1 _ _ (by norm_num) (le_refl 1) (by ring) ?_
    simp only [RGBA.mk.injEq]
    refine ⟨?_, ?_, ?_, ?_⟩ <;> ring
  · refine key (1/2) _ _ (by norm_num) (by norm_num) (by ring) ?_
    simp only [RGBA.mk.injEq]
    refine ⟨?_, ?_, ?_, ?_⟩ <;> ring

/-- C15, witness: the gradient with blue at 1, red at 0 and green at 1/2 added
in that order: at 1/4 the midpoint of red and green, at 3/4 the midpoint of
green and blue, at 1/2 exactly green. -/
theorem getColor_piecewise_linear_witness :
    (∃ g' : State, getColor threeStopGradient (1/4) = some (⟨1/2, 1/2, 0, 1⟩, g')) ∧
    (∃ g' : State, getColor threeStopGradient (3/4) = some (⟨0, 1/2, 1/2, 1⟩, g')) ∧
    (∃ g' : State, getColor threeStopGradient (1/2) = some (⟨0, 1, 0, 1⟩, g')) := by
  have hinv : threeStopGradient.m_stopsSorted = true → SortedStops threeStopGradient.m_stops := by
    simp [threeStopGradient, addColorStop, platformDestroy]
  have hcur : 0 ≤ threeStopGradient.m_lastStop ∧
      threeStopGradient.m_lastStop < (threeStopGradient.m_stops.length : Int) - 1 := by
    simp [threeStopGradient, addColorStop, platformDestroy, linear, platformInit]
  have hstrict : (stable_sort threeStopGradient.m_stops).Pairwise
      (fun x y => x.stop < y.stop) := by
    norm_num [threeStopGradient, addColorStop, platformDestroy, linear, platformInit,
      stable_sort, stable_sort.insert, compareStops]
  have hrange : ∀ s ∈ threeStopGradient.m_stops, 0 ≤ s.stop ∧ s.stop ≤ 1 := by
    intro s hs
    simp only [threeStopGradient, addColorStop, platformDestroy, linear, platformInit,
      List.nil_append, List.cons_append, List.mem_cons, List.mem_singleton,
      List.not_mem_nil, or_false] at hs
    rcases hs with h | h | h <;> rw [h] <;> norm_num
  have h0 := getColor_piecewise_linear threeStopGradient 0 ⟨0, 1, 0, 0, 1⟩ ⟨1/2, 0, 1, 0, 1⟩
    (1/2) hinv hcur hstrict hrange
    (by norm_num [threeStopGradient, addColorStop, platformDestroy, linear, platformInit,
      stable_sort, stable_sort.insert, compareStops])
    (by norm_num [threeStopGradient, addColorStop, platformDestroy, linear, platformInit,
      stable_sort, stable_sort.insert, compareStops])
    (by norm_num)
  have h1 := getColor_piecewise_linear threeStopGradient 1 ⟨1/2, 0, 1, 0, 1⟩ ⟨1, 0, 0, 1, 1⟩
    (1/2) hinv hcur hstrict hrange
    (by norm_num [threeStopGradient, addColorStop, platformDestroy, linear, platformInit,
      stable_sort, stable_sort.insert, compareStops])
    (by norm_num [threeStopGradient, addColorStop, platformDestroy, linear, platformInit,
      stable_sort, stable_sort.insert, compareStops])
    (by norm_num)
  obtain ⟨ga, hga⟩ := h0.1
  obtain ⟨gb, hgb⟩ := h1.1
  obtain ⟨gc, hgc⟩ := h0.2.2.1
  refine ⟨⟨ga, ?_⟩, ⟨gb, ?_⟩, ⟨gc, ?_⟩⟩
  · have e : (1/4 : ℚ) = (0 : ℚ) + 1/2 * (1/2 - 0) := by norm_num
    rw [e, hga]
    norm_num
  · have e : (3/4 : ℚ) = (1/2 : ℚ) + 1/2 * (1 - 1/2) := by norm_num
    rw [e, hgb]
    norm_num
  · exact hgc

/-- C16: in every reachable state, when `getColor` with a value in [0,1] reaches
the call of `findStop` (the stops are not empty and neither clamp test
succeeds), the asserted preconditions of `findStop` hold (value in [0,1], stops
sorted, at least 2 stops, cursor below count - 1) and the cursor is not
negative; `findStop` and `getColor` return, so that every element access
(`m_stops[m_lastStop]`, `m_stops[i]` in the loop, `m_stops[stop]`,
`m_stops[stop + 1]`) is within bounds; and the cursor left behind again
satisfies `0 <= m_lastStop < count - 1`. -/
theorem getColor_findStop_safe (g : State) (value : ℚ) (first last : ColorStop)
    (hreach : Reachable g) (hval : 0 ≤ value ∧ value ≤ 1)
    (hf : (getColor.sortOnRead g).m_stops.head? = some first)
    (hl : (getColor.sortOnRead g).m_stops.getLast? = some last)
    (hnlow : ¬ (value ≤ 0 ∨ value ≤ first.stop))
    (hnhigh : ¬ (value ≥ 1 ∨ value ≥ last.stop)) :
    findStop.asserts (getColor.sortOnRead g) value ∧
    0 ≤ (getColor.sortOnRead g).m_lastStop ∧
    ∃ (stop : Int) (g2 : State) (cursorStop lastStop nextStop : ColorStop) (c : RGBA),
      stopAt (getColor.sortOnRead g).m_stops (getColor.sortOnRead g).m_lastStop
        = some cursorStop ∧
      findStop (getColor.sortOnRead g) value = some (stop, g2) ∧
      stopAt g2.m_stops stop = some lastStop ∧
      stopAt g2.m_stops (stop + 1) = some nextStop ∧
      getColor g value = some (c, g2) ∧
      0 ≤ g2.m_lastStop ∧ g2.m_lastStop < (g2.m_stops.length : Int) - 1 := by
  obtain ⟨hsi, hc0, hc1⟩ := hreach.invariant
  have hso := getColor.sortOnRead_eq g hsi
  have hst : (getColor.sortOnRead g).m_stops = stable_sort g.m_stops := by rw [hso]
  have hflag : (getColor.sortOnRead g).m_stopsSorted = true := by rw [hso]
  rw [hst] at hf hl
  have h2 := two_le_length_of_not_clamped hf hl hnlow hnhigh
  have hcur : 0 ≤ g.m_lastStop ∧ g.m_lastStop < (g.m_stops.length : Int) - 1 := by
    refine ⟨hc0, ?_⟩
    rcases hc1 with h | h
    · rw [h]; omega
    · exact h
  have hlen := getColor.sortOnRead_length g
  have hcu := getColor.sortOnRead_lastStop g
  obtain ⟨j, a, b, hfs, hj0, hj1, ha, hb, -, -, hget⟩ :=
    getColor_interp g value first last hsi hcur hf hl hnlow hnhigh
  obtain ⟨cs, hcs⟩ := stopAt_isSome (s := (getColor.sortOnRead g).m_stops)
    (i := (getColor.sortOnRead g).m_lastStop) (by rw [hcu]; exact hcur.1)
    (by rw [hcu, hlen]; omega)
  refine ⟨⟨hval.1, hval.2, hflag, ?_, ?_⟩, ?_, j, _, cs, a, b, _, hcs, hfs, ?_, ?_, hget,
    hj0, ?_⟩
  · rw [hlen]; omega
  · rw [hcu, hlen]; exact hcur.2
  · rw [hcu]; exact hcur.1
  · show stopAt (getColor.sortOnRead g).m_stops j = some a
    rw [hst]; exact ha
  · show stopAt (getColor.sortOnRead g).m_stops (j + 1) = some b
    rw [hst]; exact hb
  · show j < ((getColor.sortOnRead g).m_stops.length : Int) - 1
    rw [hlen]; exact hj1

/-- C16, witness: the three-stop gradient, built by the linear constructor and
three insertions, queried at 1/4. -/
theorem getColor_findStop_safe_witness :
    findStop.asserts (getColor.sortOnRead threeStopGradient) (1/4) ∧
    0 ≤ (getColor.sortOnRead threeStopGradient).m_lastStop ∧
    ∃ (stop : Int) (g2 : State) (cursorStop lastStop nextStop : ColorStop) (c : RGBA),
      stopAt (getColor.sortOnRead threeStopGradient).m_stops (getColor.sortOnRead threeStopGradient).m_lastStop
        = some cursorStop ∧
      findStop (getColor.sortOnRead threeStopGradient) (1/4) = some (stop, g2) ∧
      stopAt g2.m_stops stop = some lastStop ∧
      stopAt g2.m_stops (stop + 1) = some nextStop ∧
      getColor threeStopGradient (1/4) = some (c, g2) ∧
      0 ≤ g2.m_lastStop ∧ g2.m_lastStop < (g2.m_stops.length : Int) - 1 :=
  getColor_findStop_safe threeStopGradient (1/4) ⟨0, 1, 0, 0, 1⟩ ⟨1, 0, 0, 1, 1⟩
    (Reachable.addColorStop _ (Reachable.addColorStop _ (Reachable.addColorStop _
      (Reachable.linear ⟨0, 0⟩ ⟨1, 0⟩))))
    (by norm_num)
    (by norm_num [getColor.sortOnRead, threeStopGradient, addColorStop, platformDestroy,
      linear, platformInit, stable_sort, stable_sort.insert, compareStops])
    (by norm_num [getColor.sortOnRead, threeStopGradient, addColorStop, platformDestroy,
      linear, platformInit, stable_sort, stable_sort.insert, compareStops])
    (by norm_num) (by norm_num)

/-- C17, as amended: in `findStop`, when the value is below the position of the
stop at the cached cursor the forward scan starts at index 1, and otherwise at
`m_lastStop + 1`: for a sorted stop list with at least 2 stops, a valid cursor
and a value in [0,1], the result of `findStop` is `i - 1`, where `i` is the
first index at or after that start index, below `count - 1`, with
`value < stops[i].stop`, or `count - 1` if there is none; the cursor is left at
the result. -/
theorem findStop_scan_start (g : State) (value : ℚ)
    (hsorted : SortedStops g.m_stops) (hlen : 2 ≤ g.m_stops.length)
    (hcur : 0 ≤ g.m_lastStop ∧ g.m_lastStop < (g.m_stops.length : Int) - 1)
    (hval : 0 ≤ value ∧ value ≤ 1) :
    ∃ (cursorStop : ColorStop) (start i : Int),
      stopAt g.m_stops g.m_lastStop = some cursorStop ∧
      start = (if value < cursorStop.stop then 1 else g.m_lastStop + 1) ∧
      findStop g value = some (i - 1, { g with m_lastStop := i - 1 }) ∧
      start ≤ i ∧ i ≤ (g.m_stops.length : Int) - 1 ∧
      (∀ m : Int, start ≤ m → m < i →
        ∀ x, stopAt g.m_stops m = some x → ¬ value < x.stop) ∧
      (i < (g.m_stops.length : Int) - 1 →
        ∀ x, stopAt g.m_stops i = some x → value < x.stop) := by
  have _h1 := hsorted
  have _h2 := hval
  have _h3 := hlen
  obtain ⟨c, hc⟩ := stopAt_isSome (s := g.m_stops) (i := g.m_lastStop) hcur.1 (by omega)
  have hstart : 0 ≤ (if value < c.stop then (1 : Int) else g.m_lastStop + 1) ∧
      (if value < c.stop then (1 : Int) else g.m_lastStop + 1)
        ≤ (g.m_stops.length : Int) - 1 := by
    split <;> constructor <;> omega
  obtain ⟨i, hi, hsi, hin, hbefore, hat⟩ :=
    findStop.loop_first g.m_stops value (g.m_stops.length : Int) rfl _ _ rfl
      hstart.1 hstart.2
  refine ⟨c, _, i, hc, rfl, ?_, hsi, hin, hbefore, hat⟩
  unfold findStop
  simp only [hc, hi]

/-- C17, witness: the five-stop gradient with the cursor at 3, searched for
1/10. -/
theorem findStop_scan_start_witness :
    ∃ (cursorStop : ColorStop) (start i : Int),
      stopAt fiveStopGradientQueried.m_stops fiveStopGradientQueried.m_lastStop
        = some cursorStop ∧
      start = (if (1/10 : ℚ) < cursorStop.stop then 1
        else fiveStopGradientQueried.m_lastStop + 1) ∧
      findStop fiveStopGradientQueried (1/10)
        = some (i - 1, { fiveStopGradientQueried with m_lastStop := i - 1 }) ∧
      start ≤ i ∧ i ≤ (fiveStopGradientQueried.m_stops.length : Int) - 1 ∧
      (∀ m : Int, start ≤ m → m < i →
        ∀ x, stopAt fiveStopGradientQueried.m_stops m = some x → ¬ (1/10 : ℚ) < x.stop) ∧
      (i < (fiveStopGradientQueried.m_stops.length : Int) - 1 →
        ∀ x, stopAt fiveStopGradientQueried.m_stops i = some x → (1/10 : ℚ) < x.stop) :=
  findStop_scan_start fiveStopGradientQueried (1/10)
    (by
      norm_num [fiveStopGradientQueried, getColor.sortOnRead, fiveStopGradient, addColorStop,
        platformDestroy, linear, platformInit, stable_sort, stable_sort.insert, compareStops,
        SortedStops])
    (by
      norm_num [fiveStopGradientQueried, getColor.sortOnRead, fiveStopGradient, addColorStop,
        platformDestroy, linear, platformInit, stable_sort, stable_sort.insert, compareStops])
    (by
      norm_num [fiveStopGradientQueried, getColor.sortOnRead, fiveStopGradient, addColorStop,
        platformDestroy, linear, platformInit, stable_sort, stable_sort.insert, compareStops])
    (by norm_num)

/-- C17, counterexample: the five-stop gradient (positions 0, 1/4, 1/2, 3/4, 1)
reaches the cursor 3 by the query at 4/5. For the value 1/10, which is below
the stop at the cursor (3/4), the claim starts the scan at `max(1, 3) = 3`,
where `1/10 < 3/4` holds at once, and so gives the result `3 - 1 = 2`;
`findStop` starts at 1 and returns 0, the interval that holds 1/10. -/
theorem findStop_scan_start_counterexample :
    (getColor fiveStopGradient (4/5)).map Prod.snd = some fiveStopGradientQueried ∧
    SortedStops fiveStopGradientQueried.m_stops ∧
    fiveStopGradientQueried.m_lastStop = 3 ∧
    stopAt fiveStopGradientQueried.m_stops 3 = some ⟨3/4, 3/4, 3/4, 3/4, 1⟩ ∧
    (1/10 : ℚ) < 3/4 ∧
    max (1 : Int) 3 = 3 ∧
    (3 : Int) < (fiveStopGradientQueried.m_stops.length : Int) - 1 ∧
    (findStop fiveStopGradientQueried (1/10)).map Prod.fst = some 0 ∧
    (findStop fiveStopGradientQueried (1/10)).map Prod.fst ≠ some (3 - 1) := by
  have t2 : Int.toNat 2 = 2 := rfl
  have t3 : Int.toNat 3 = 3 := rfl
  have t4 : Int.toNat 4 = 4 := rfl
  have hfind : (findStop fiveStopGradientQueried (1/10)).map Prod.fst = some 0 := by
    norm_num [fiveStopGradientQueried, getColor.sortOnRead, fiveStopGradient, addColorStop,
      platformDestroy, linear, platformInit, stable_sort, stable_sort.insert, compareStops,
      findStop, stopAt, t3]
    rw [findStop.loop]
    norm_num [stopAt]
  refine ⟨?_, ?_, ?_, ?_, by norm_num, by norm_num, ?_, hfind, ?_⟩
  rotate_left
  · norm_num [fiveStopGradientQueried, getColor.sortOnRead, fiveStopGradient, addColorStop,
      platformDestroy, linear, platformInit, stable_sort, stable_sort.insert, compareStops,
      SortedStops]
  rotate_right
  · norm_num [fiveStopGradientQueried, getColor, getColor.sortOnRead, fiveStopGradient,
      addColorStop, platformDestroy, linear, platformInit, stable_sort, stable_sort.insert,
      compareStops, findStop, stopAt]
    rw [findStop.loop]
    norm_num [stopAt, t2, t3, t4]
    rw [findStop.loop]
    norm_num [stopAt, t2, t3, t4]
    rw [findStop.loop]
    norm_num [stopAt, t2, t3, t4]
    rw [findStop.loop]
    norm_num [stopAt, t2, t3, t4]
  · simp [fiveStopGradientQueried]
  · norm_num [fiveStopGradientQueried, getColor.sortOnRead, fiveStopGradient, addColorStop,
      platformDestroy, linear, platformInit, stable_sort, stable_sort.insert, compareStops,
      stopAt, t3]
  · norm_num [fiveStopGradientQueried, getColor.sortOnRead, fiveStopGradient, addColorStop,
      platformDestroy, linear, platformInit, stable_sort, stable_sort.insert, compareStops]
  · rw [hfind]
    norm_num

/-- C18: the predicate "`m_stopsSorted` implies that the stops are non-decreasing
by position" holds after both constructors and is preserved by `addColorStop`
in both forms, `sortStopsIfNecessary`, `getColor`, `findStop`,
`setSpreadMethod`, `setGradientSpaceTransform` and
`adjustParametersForTiledDrawing` (`hasAlpha` writes no member); hence it holds
in every reachable state, and there `getColor` returns. -/
theorem stopsSortedInvariant_preserved :
    (∀ p0 p1 : FloatPoint, stopsSortedInvariant (linear p0 p1)) ∧
    (∀ (p0 : FloatPoint) (r0 : ℚ) (p1 : FloatPoint) (r1 aspectRatio : ℚ),
      stopsSortedInvariant (radial p0 r0 p1 r1 aspectRatio)) ∧
    (∀ (g : State) (stop : ColorStop),
      stopsSortedInvariant g → stopsSortedInvariant (addColorStop g stop)) ∧
    (∀ (KdColor : Type) (getRGBA : KdColor → RGBA) (g : State) (value : ℚ) (color : KdColor),
      stopsSortedInvariant g →
        stopsSortedInvariant (addColorStopColor getRGBA g value color)) ∧
    (∀ g : State, stopsSortedInvariant g → stopsSortedInvariant (sortStopsIfNecessary g)) ∧
    (∀ (g : State) (value : ℚ) (c : RGBA) (g' : State),
      stopsSortedInvariant g → getColor g value = some (c, g') → stopsSortedInvariant g') ∧
    (∀ (g : State) (value : ℚ) (i : Int) (g' : State),
      stopsSortedInvariant g → findStop g value = some (i, g') → stopsSortedInvariant g') ∧
    (∀ (g : State) (spreadMethod : GradientSpreadMethod),
      stopsSortedInvariant g → stopsSortedInvariant (setSpreadMethod g spreadMethod)) ∧
    (∀ (g : State) (t : AffineTransform),
      stopsSortedInvariant g → stopsSortedInvariant (setGradientSpaceTransform g t)) ∧
    (∀ (isEmpty : FloatRect → Bool) (g : State) (size : IntSize) (srcRect : FloatRect),
      stopsSortedInvariant g →
        stopsSortedInvariant (adjustParametersForTiledDrawing isEmpty g size srcRect).1) ∧
    (∀ g : State, Reachable g → stopsSortedInvariant g) ∧
    (∀ (g : State) (value : ℚ), Reachable g →
      ∃ (c : RGBA) (g' : State), getColor g value = some (c, g')) := by
  refine ⟨?_, ?_, ?_, ?_, ?_, ?_, ?_, ?_, ?_, ?_, ?_, ?_⟩
  · intro p0 p1 hflag
    simp [linear, platformInit] at hflag
  · intro p0 r0 p1 r1 aspectRatio hflag
    simp [radial, platformInit] at hflag
  · intro g stop _ hflag
    simp [addColorStop, platformDestroy] at hflag
  · intro KdColor getRGBA g value color _ hflag
    simp [addColorStopColor, platformDestroy] at hflag
  · intro g h
    rw [← getColor.sortOnRead_eq_sortStopsIfNecessary]
    exact getColor.sortOnRead_invariant g h
  · intro g value c g' h hget
    obtain ⟨j, hj | hj⟩ := getColor_frame hget
    · rw [hj]; exact h
    · rw [hj]; exact getColor.sortOnRead_invariant g h
  · intro g value i g' h hfs
    rw [findStop_frame hfs]
    exact h
  · intro g spreadMethod h
    exact h
  · intro g t h
    exact h
  · intro isEmpty g size srcRect h
    rw [adjustParametersForTiledDrawing_fst]
    exact h
  · intro g hreach
    exact hreach.invariant.1
  · intro g value hreach
    obtain ⟨c, g', hget, -⟩ := getColor_step g value hreach.invariant
    exact ⟨c, g', hget⟩

/-- C18, witness: the three-stop gradient after `sortStopsIfNecessary` is
reachable, its flag is set, and its stops are in order. -/
theorem stopsSortedInvariant_preserved_witness :
    (sortStopsIfNecessary threeStopGradient).m_stopsSorted = true ∧
    SortedStops (sortStopsIfNecessary threeStopGradient).m_stops :=
  have hflag : (sortStopsIfNecessary threeStopGradient).m_stopsSorted = true := by
    simp [sortStopsIfNecessary, threeStopGradient, addColorStop, platformDestroy]
  ⟨hflag, stopsSortedInvariant_preserved.2.2.2.2.2.2.2.2.2.2.1
    (sortStopsIfNecessary threeStopGradient)
    (Reachable.sortStopsIfNecessary (Reachable.addColorStop _ (Reachable.addColorStop _
      (Reachable.addColorStop _ (Reachable.linear ⟨0, 0⟩ ⟨1, 0⟩))))) hflag⟩

/-- C19: sorting early does not change a later sort:
`stable_sort (stable_sort xs ++ ys) = stable_sort (xs ++ ys)`. Hence a history
of insertions interleaved with queries (values in [0,1]) and explicit sorts,
run from a state `g0`, ends in a state whose sorted stops are those of the
state reached by the insertions alone; the stored stops, once sorted, are that
sequence; stops of equal position stand in insertion order; and every later
`getColor` returns the same colour on both states. -/
theorem queries_do_not_change_later_results (g0 : State) (ops : List Op)
    (hinv : Invariant g0)
    (hq : ∀ v : ℚ, Op.query v ∈ ops → 0 ≤ v ∧ v ≤ 1) :
    (∀ xs ys : List ColorStop, stable_sort (stable_sort xs ++ ys) = stable_sort (xs ++ ys)) ∧
    ∃ g : State, runOps g0 ops = some g ∧
      stable_sort g.m_stops = stable_sort ((addedStops ops).foldl addColorStop g0).m_stops ∧
      ((addedStops ops).foldl addColorStop g0).m_stops = g0.m_stops ++ addedStops ops ∧
      (g.m_stopsSorted = true → g.m_stops = stable_sort (g0.m_stops ++ addedStops ops)) ∧
      (∀ p : ℚ, (stable_sort g.m_stops).filter (fun s => decide (s.stop = p))
        = (g0.m_stops ++ addedStops ops).filter (fun s => decide (s.stop = p))) ∧
      (∀ value : ℚ, 0 ≤ value → value ≤ 1 →
        ∃ (c : RGBA) (s1 s2 : State), getColor g value = some (c, s1) ∧
          getColor ((addedStops ops).foldl addColorStop g0) value = some (c, s2)) := by
  have _h := hq
  refine ⟨fun xs ys => stable_sort_append_congr ys (stable_sort_idem xs), ?_⟩
  obtain ⟨g, hrun, hinvg, hs⟩ := runOps_spec ops g0 g0.m_stops hinv rfl
  have hfold := foldl_addColorStop_stops (addedStops ops) g0
  have hinvf := foldl_addColorStop_invariant (addedStops ops) g0 hinv
  refine ⟨g, hrun, ?_, hfold, ?_, ?_, ?_⟩
  · rw [hfold]; exact hs
  · intro hflag
    rw [← hs]
    exact (stable_sort_eq_self (hinvg.1 hflag)).symm
  · intro p
    rw [hs, stable_sort_filter]
  · intro value _ _
    exact getColor_colour_eq g _ value hinvg.1 hinvf.1 hinvg.cursor hinvf.cursor
      (by rw [hfold]; exact hs)

/-- C19, witness: from a new linear gradient, the history "add blue at 1, query
1/2, add red at 0, sort, add green at 1/2, query 1/4" ends in the sorted
three-stop gradient, and a later query agrees with the gradient that received
the three insertions alone. -/
theorem queries_do_not_change_later_results_witness :
    ∃ g : State,
      runOps (linear ⟨0, 0⟩ ⟨1, 0⟩)
        [Op.add ⟨1, 0, 0, 1, 1⟩, Op.query (1/2), Op.add ⟨0, 1, 0, 0, 1⟩, Op.sort,
          Op.add ⟨1/2, 0, 1, 0, 1⟩, Op.query (1/4)] = some g ∧
      ∀ value : ℚ, 0 ≤ value → value ≤ 1 →
        ∃ (c : RGBA) (s1 s2 : State), getColor g value = some (c, s1) ∧
          getColor threeStopGradient value = some (c, s2) :=
  match (queries_do_not_change_later_results (linear ⟨0, 0⟩ ⟨1, 0⟩)
      [Op.add ⟨1, 0, 0, 1, 1⟩, Op.query (1/2), Op.add ⟨0, 1, 0, 0, 1⟩, Op.sort,
        Op.add ⟨1/2, 0, 1, 0, 1⟩, Op.query (1/4)]
      (Reachable.linear ⟨0, 0⟩ ⟨1, 0⟩).invariant
      (by
        intro v hv
        simp only [List.mem_cons, Op.query.injEq, List.mem_singleton, List.not_mem_nil,
          or_false, false_or, reduceCtorEq] at hv
        rcases hv with h | h <;> rw [h] <;> norm_num)).2 with
  | ⟨g, hrun, _, _, _, _, hcol⟩ => ⟨g, hrun, hcol⟩

/-- C20: for a non-empty stop list on which `hasAlpha` returns false, the alpha
`getColor` returns is at least 1 for every value in [0,1], and exactly 1 when
every stop's alpha is exactly 1. The stop list has to be non-empty: on an empty
one `hasAlpha` is false as well and `getColor` returns alpha 0. -/
theorem getColor_alpha_without_hasAlpha (g : State) (value : ℚ) (hinv : Invariant g)
    (hne : g.m_stops ≠ []) (hnoalpha : hasAlpha g = false)
    (hval : 0 ≤ value ∧ value ≤ 1) :
    (∃ (c : RGBA) (g' : State), getColor g value = some (c, g') ∧ 1 ≤ c.a ∧
      ((∀ s ∈ g.m_stops, s.alpha = 1) → c.a = 1)) ∧
    (∀ e : State, e.m_stops = [] →
      hasAlpha e = false ∧ getColor e value = some (⟨0, 0, 0, 0⟩, e)) := by
  have _h := hval
  have hall : ∀ s ∈ g.m_stops, 1 ≤ s.alpha := hasAlpha.loop_false hnoalpha
  constructor
  · obtain ⟨c, g', hget, hcase⟩ := getColor_alpha_cases g value hinv hne
    refine ⟨c, g', hget, ?_, ?_⟩
    · rcases hcase with ⟨s, hs, hc⟩ | ⟨a, ha, b, hb, t, ht0, ht1, hc⟩
      · rw [hc]; exact hall s hs
      · rw [hc]
        exact le_trans (le_min (hall a ha) (hall b hb))
          (lerp_between a.alpha b.alpha t ht0 ht1).1
    · intro hone
      rcases hcase with ⟨s, hs, hc⟩ | ⟨a, ha, b, hb, t, ht0, ht1, hc⟩
      · rw [hc]; exact hone s hs
      · rw [hc, hone a ha, hone b hb]
        ring
  · intro e he
    refine ⟨?_, getColor_nil e value he⟩
    unfold hasAlpha
    rw [he]
    rfl

/-- C20, witness: the five-stop gradient, all of whose alphas are 1, queried at
3/10. -/
theorem getColor_alpha_without_hasAlpha_witness :
    ∃ (c : RGBA) (g' : State), getColor fiveStopGradient (3/10) = some (c, g') ∧ 1 ≤ c.a ∧
      ((∀ s ∈ fiveStopGradient.m_stops, s.alpha = 1) → c.a = 1) :=
  (getColor_alpha_without_hasAlpha fiveStopGradient (3/10)
    (Reachable.addColorStop _ (Reachable.addColorStop _ (Reachable.addColorStop _
      (Reachable.addColorStop _ (Reachable.addColorStop _
        (Reachable.linear ⟨0, 0⟩ ⟨1, 0⟩)))))).invariant
    (by simp [fiveStopGradient, addColorStop, platformDestroy, linear, platformInit])
    (by
      norm_num [hasAlpha, hasAlpha.loop, fiveStopGradient, addColorStop, platformDestroy,
        linear, platformInit])
    (by norm_num)).1

end Gradient
